import Mathlib

/-!
Verification of the py2048 game engine (src/backend/game.py) against its
natural-language specification.  The Python class `Game` is shallowly embedded:
its pure line-merging algorithms become Lean functions on `List Nat`, the
mutable `self.state` dictionary becomes an explicit `StateDict` record, and the
random tile spawner is parametrised by an explicit stream of choices (each
actual run of the Python RNG corresponds to one choice stream).
-/

namespace Py2048

/-- The two merge policies of `Game` (`self.merge_strategy`); the Python code
dispatches on the strings standard and reverse and silently treats any
other string as standard, so a two-variant type captures all behaviours. -/
inductive Strategy where
  | standard
  | reverse
deriving DecidableEq, Repr

/-- One merge pass scanning from the front of the compressed line: the
`while i < len(tiles)` loop of `Game._merge_reverse`.  If the two tiles at the
scan position are equal they are merged into their sum (earning that many
points and setting the merge flag) and both are skipped, otherwise the first
tile is emitted unchanged.  Returns (result, points_earned, merge_occurred). -/
def mergeFwd : List Nat → List Nat × Nat × Bool
  | [] => ([], 0, false)
  | [a] => ([a], 0, false)
  | a :: b :: rest =>
    if a = b then
      ((a + b) :: (mergeFwd rest).1, (a + b) + (mergeFwd rest).2.1, true)
    else
      (a :: (mergeFwd (b :: rest)).1, (mergeFwd (b :: rest)).2.1, (mergeFwd (b :: rest)).2.2)

/-- One merge pass scanning from the far end of the compressed line: the
`while i >= 0` loop of `Game._merge_standard`, which compares `tiles[i]` with
`tiles[i-1]` walking `i` down from `len(tiles)-1` and inserts each emitted
value at the front of the result.  Scanning right-to-left and prepending each
emitted value is the same as scanning the reversed list left-to-right and
reversing the output, which is how it is written here. -/
def stdPass (t : List Nat) : List Nat × Nat × Bool :=
  ((mergeFwd t.reverse).1.reverse, (mergeFwd t.reverse).2.1, (mergeFwd t.reverse).2.2)

/-- The secondary-merge recursion shared by `Game._merge_standard` and
`Game._merge_reverse`: after one pass, if `allow_secondary_merge` is set, the
pass produced at least one merge and more than one tile remains, the whole
merge routine is applied recursively to the output; if the recursive call
merged again its result is kept (accumulating points), otherwise the result of
the first pass stands.  The recursion depth is bounded by the line length
(every merging pass strictly shortens the line), so it is written with an
explicit fuel argument initialised to the length; `mergeSecAux_congr` below
shows that any sufficient fuel gives the same result. -/
def mergeSecAux (pass : List Nat → List Nat × Nat × Bool) (sec : Bool) :
    Nat → List Nat → List Nat × Nat × Bool
  | 0, t => pass t
  | fuel + 1, t =>
    if sec ∧ (pass t).2.2 ∧ 1 < (pass t).1.length then
      if (mergeSecAux pass sec fuel (pass t).1).2.2 then
        ((mergeSecAux pass sec fuel (pass t).1).1,
         (pass t).2.1 + (mergeSecAux pass sec fuel (pass t).1).2.1, true)
      else pass t
    else pass t

/-- Model of `Game._merge_reverse` (single pass plus optional secondary merges). -/
def mergeReverse (sec : Bool) (t : List Nat) : List Nat × Nat × Bool :=
  mergeSecAux mergeFwd sec t.length t

/-- Model of `Game._merge_standard` (single pass plus optional secondary merges). -/
def mergeStandard (sec : Bool) (t : List Nat) : List Nat × Nat × Bool :=
  mergeSecAux stdPass sec t.length t

/-- Dispatch on `self.merge_strategy` as `Game._process_line` does. -/
def mergeBy (strat : Strategy) (sec : Bool) (t : List Nat) : List Nat × Nat × Bool :=
  match strat with
  | .standard => mergeStandard sec t
  | .reverse => mergeReverse sec t

/-- The `while len(result) < len(line): result.append(0)` padding step of
`Game._process_line`. -/
def padTriple (n : Nat) (r : List Nat × Nat × Bool) : List Nat × Nat × Bool :=
  (r.1 ++ List.replicate (n - r.1.length) 0, r.2.1, r.2.2)

/-- Model of `Game._process_line`: drop the zeros, return the line unchanged when no
tile remains, otherwise merge the compressed line by the configured strategy
and pad the result with zeros back to the original length. -/
def processLine (strat : Strategy) (sec : Bool) (line : List Nat) :
    List Nat × Nat × Bool :=
  if line.filter (fun x => x ≠ 0) = [] then (line, 0, false)
  else padTriple line.length (mergeBy strat sec (line.filter (fun x => x ≠ 0)))

/-- The per-row transform of `Game._move_right`: reverse the row, process it as
a leftward line, reverse the result back. -/
def processRowRight (strat : Strategy) (sec : Bool) (row : List Nat) :
    List Nat × Nat × Bool :=
  ((processLine strat sec row.reverse).1.reverse,
   (processLine strat sec row.reverse).2.1,
   (processLine strat sec row.reverse).2.2)

/-- Counts how many times the single merge pass runs inside
`Game._merge_standard` / `Game._merge_reverse` (the first pass plus every
secondary pass triggered by `allow_secondary_merge`); mirrors the recursion of
`mergeSecAux` with the same fuel discipline.  An empty input returns before
any pass runs. -/
def countPassesAux (pass : List Nat → List Nat × Nat × Bool) (sec : Bool) :
    Nat → List Nat → Nat
  | 0, _ => 0
  | fuel + 1, t =>
    if t = [] then 0
    else
      1 + (if sec ∧ (pass t).2.2 ∧ 1 < (pass t).1.length
           then countPassesAux pass sec fuel (pass t).1 else 0)

/-- Number of merge passes performed on a compressed line by the configured
strategy. -/
def countPasses (strat : Strategy) (sec : Bool) (t : List Nat) : Nat :=
  match strat with
  | .standard => countPassesAux stdPass sec t.length t
  | .reverse => countPassesAux mergeFwd sec t.length t

/-! ### The board and game state

`self.state` is a dictionary with fixed keys (board, score, streak,
streak_multiplier, over, won, display_message, moves_count, move_history);
it becomes the record `StateDict`.  `self.history` is a list of deep copies
of that dictionary.  The session-persistent counters `hints_used` and
`redos_used` live outside `self.state` and are not saved or restored.
The streak multiplier is a Python float; it is modelled by the exact rational
value of the IEEE-754 double computed by `streakMult` below. -/

abbrev Board := List (List Nat)

/-- Reading `self.board[y][x]`, total by defaulting out-of-range reads to 0; the class
only ever indexes inside the configured `size_y × size_x` rectangle. -/
def getCell (b : Board) (y x : Nat) : Nat := (b.getD y []).getD x 0

/-- Writing `self.board[y][x] = v` (no-op when out of range, which never happens). -/
def setCell (b : Board) (y x v : Nat) : Board :=
  b.set y ((b.getD y []).set x v)

/-- Game configuration after `__init__` has extracted the request fields.
`max_redo` is an `Int` because -1 means unlimited. -/
structure Config where
  sizeX : Nat
  sizeY : Nat
  winValue : Nat
  initialTiles : Nat
  randomNewTiles : Nat
  newTileValues : List Nat
  maxRedo : Int
  mergeStrategy : Strategy
  allowSecondaryMerge : Bool
  useStreak : Bool
  streakBonusPercent : Nat
  numberOfHints : Nat
deriving DecidableEq, Repr

inductive Dir where
  | up
  | down
  | left
  | right
deriving DecidableEq, Repr

/-- The `MoveHistoryEntry` record (models.py) as stored in the move-history list by
`Game.handle_move`; the wall-clock timestamp is not modelled. -/
structure MoveEntry where
  moveNumber : Nat
  direction : Dir
  pointsEarned : Nat
  mergeOccurred : Bool
  streakAfterMove : Nat
  boardState : Board
deriving DecidableEq, Repr

/-- The `self.state` dictionary. -/
structure StateDict where
  board : Board
  score : Nat
  streak : Nat
  streakMultiplier : Rat
  over : Bool
  won : Bool
  displayMessage : String
  movesCount : Nat
  moveHistory : List MoveEntry
deriving DecidableEq, Repr

/-- The mutable part of a `Game` instance relevant to game play. -/
structure Game where
  state : StateDict
  hintsUsed : Nat
  redosUsed : Nat
  history : List StateDict
deriving DecidableEq, Repr

/-- The scan of `Game.add_random_tile` for empty cells, in the same (y, x) order. -/
def emptyCells (cfg : Config) (b : Board) : List (Nat × Nat) :=
  (List.range cfg.sizeY).flatMap fun y =>
    (List.range cfg.sizeX).filterMap fun x =>
      if getCell b y x = 0 then some (y, x) else none

/-- Model of `Game.add_random_tile`: returns false on a full board, otherwise writes a
value from `new_tile_values` into one empty cell.  `random.choice` picks an
arbitrary list element; the pair `choice` selects the cell index and the value
index (any actual RNG draw corresponds to some choice, and conversely). -/
def addRandomTile (cfg : Config) (choice : Nat × Nat) (b : Board) : Board × Bool :=
  if emptyCells cfg b = [] then (b, false)
  else
    (setCell b
      ((emptyCells cfg b).getD (choice.1 % (emptyCells cfg b).length) (0, 0)).1
      ((emptyCells cfg b).getD (choice.1 % (emptyCells cfg b).length) (0, 0)).2
      (cfg.newTileValues.getD (choice.2 % cfg.newTileValues.length) 0), true)

/-- The spawn loop of `Game.init_game`: `for _ in range(initial_tiles):
add_random_tile()`, ignoring failures. -/
def addTilesInit (cfg : Config) : Nat → List (Nat × Nat) → Board → Board
  | 0, _, b => b
  | n + 1, cs, b => addTilesInit cfg n cs.tail (addRandomTile cfg (cs.headD (0, 0)) b).1

/-- The spawn loop of `Game.handle_move`: `for _ in range(random_new_tiles)`,
breaking as soon as the board is full. -/
def addTilesMove (cfg : Config) : Nat → List (Nat × Nat) → Board → Board
  | 0, _, b => b
  | n + 1, cs, b =>
    if (addRandomTile cfg (cs.headD (0, 0)) b).2 then
      addTilesMove cfg n cs.tail (addRandomTile cfg (cs.headD (0, 0)) b).1
    else b

/-- Aggregation over the per-line results inside the four `_move_*` methods:
new lines, summed points, merge flag or-ed together. -/
def combineLines (rs : List (List Nat × Nat × Bool)) : Board × Nat × Bool :=
  (rs.map fun r => r.1, (rs.map fun r => r.2.1).sum, rs.any fun r => r.2.2)

/-- Column extraction of `_move_up`/`_move_down`: `column =
[board[r][c] for r in range(size_y)]` for each `c in range(size_x)`. -/
def colsOf (cfg : Config) (b : Board) : Board :=
  (List.range cfg.sizeX).map fun c => (List.range cfg.sizeY).map fun r => getCell b r c

/-- Writing processed columns back (`board[r][c] = new_column[r]`); under the
rectangular board shape the class maintains, rebuilding every row this way is
exactly the Python in-place write-back. -/
def rowsFromCols (cfg : Config) (cols : Board) : Board :=
  (List.range cfg.sizeY).map fun r => (List.range cfg.sizeX).map fun c => getCell cols c r

/-- The per-line transform used for left/up moves. -/
def lineProc (cfg : Config) : List Nat → List Nat × Nat × Bool :=
  processLine cfg.mergeStrategy cfg.allowSecondaryMerge

/-- The per-line transform used for right/down moves (reverse, process,
reverse back). -/
def lineProcRev (cfg : Config) : List Nat → List Nat × Nat × Bool :=
  processRowRight cfg.mergeStrategy cfg.allowSecondaryMerge

/-- Model of `Game._execute_move` / `_move_left` / `_move_right` / `_move_up` /
`_move_down`: returns (new board, points_earned, merge_occurred). -/
def executeMove (cfg : Config) (dir : Dir) (b : Board) : Board × Nat × Bool :=
  match dir with
  | .left => combineLines (b.map (lineProc cfg))
  | .right => combineLines (b.map (lineProcRev cfg))
  | .up =>
    (rowsFromCols cfg (combineLines ((colsOf cfg b).map (lineProc cfg))).1,
     (combineLines ((colsOf cfg b).map (lineProc cfg))).2.1,
     (combineLines ((colsOf cfg b).map (lineProc cfg))).2.2)
  | .down =>
    (rowsFromCols cfg (combineLines ((colsOf cfg b).map (lineProcRev cfg))).1,
     (combineLines ((colsOf cfg b).map (lineProcRev cfg))).2.1,
     (combineLines ((colsOf cfg b).map (lineProcRev cfg))).2.2)

/-! ### IEEE-754 binary64 arithmetic

`Game.handle_move` computes the streak bonus as
`int(points_earned * (streak_bonus_percent / 100) * streak)` and the streak
multiplier as `1 + (streak * streak_bonus_percent / 100)`.  Both are Python
`float` (IEEE-754 binary64) computations, so they are modelled by the exact
rational value of the correctly rounded double result.  Overflow to infinity
(beyond 2^1024) and subnormals are not modelled; the magnitudes in the game
stay far inside the normal range. -/

/-- Number of binary digits of `n` (fuel-based so that it kernel-evaluates). -/
def bitlenAux : Nat → Nat → Nat
  | 0, _ => 0
  | fuel + 1, n => if n = 0 then 0 else bitlenAux fuel (n / 2) + 1

def bitlen (n : Nat) : Nat := bitlenAux n n

/-- Exact rational product, written through `Rat.divInt` so that it reduces
inside the kernel (`Rat.mul` itself is irreducible). -/
def rmul (a b : Rat) : Rat := Rat.divInt (a.num * b.num) ((a.den : Int) * b.den)

/-- Exact rational sum, through `Rat.divInt`. -/
def radd (a b : Rat) : Rat :=
  Rat.divInt (a.num * b.den + b.num * a.den) ((a.den : Int) * b.den)

/-- Exact rational difference, through `Rat.divInt`. -/
def rsub (a b : Rat) : Rat := radd a b.neg

/-- Exact rational quotient, through `Rat.divInt`. -/
def rdiv (a b : Rat) : Rat := Rat.divInt (a.num * b.den) ((a.den : Int) * b.num)

/-- The power `2 ^ e` as an exact rational, for an integer exponent. -/
def pow2 (e : Int) : Rat :=
  if 0 ≤ e then Rat.divInt (Int.ofNat (2 ^ e.toNat)) 1
  else Rat.divInt 1 (Int.ofNat (2 ^ (-e).toNat))

/-- Round a positive rational to the nearest IEEE-754 binary64 value
(round-to-nearest, ties-to-even): find the exponent `e` with
`2^52 ≤ q·2^(-e) < 2^53`, split off the integer significand, and round the
remainder, breaking ties on significand parity. -/
def roundPos (q : Rat) : Rat :=
  let e0 : Int := (bitlen q.num.toNat : Int) - (bitlen q.den : Int) - 53
  let e : Int :=
    if (2 : Int) ^ (53 : Nat) ≤ (rmul q (pow2 (-e0))).floor then e0 + 1 else e0
  let m0 : Int := (rmul q (pow2 (-e))).floor
  let r : Rat := rsub (rmul q (pow2 (-e))) (Rat.divInt m0 1)
  let m : Int :=
    if r < Rat.divInt 1 2 then m0
    else if Rat.divInt 1 2 < r then m0 + 1
    else if m0 % 2 = 0 then m0 else m0 + 1
  rmul (Rat.divInt m 1) (pow2 e)

/-- Round any rational to the nearest binary64 value. -/
def roundDouble (q : Rat) : Rat :=
  if q = 0 then 0 else if 0 < q then roundPos q else (roundPos q.neg).neg

/-- Conversion of a Python int to float (exact below 2^53, rounded above). -/
def pyFloat (n : Nat) : Rat := roundDouble (Rat.divInt (Int.ofNat n) 1)

/-- Correctly rounded float division / multiplication / addition. -/
def pyDiv (a b : Rat) : Rat := roundDouble (rdiv a b)

def pyMul (a b : Rat) : Rat := roundDouble (rmul a b)

def pyAdd (a b : Rat) : Rat := roundDouble (radd a b)

/-- The bonus `int(points_earned * (self.streak_bonus_percent / 100) * self.streak)`
from `Game.handle_move` (with `self.streak` already incremented): two float
multiplications on the correctly rounded quotient, truncated to an int.  The
result can differ from the exact `⌊points·bp·streak/100⌋`. -/
def streakBonus (points bp streak : Nat) : Nat :=
  (pyMul (pyMul (pyFloat points) (pyDiv (pyFloat bp) (pyFloat 100)))
    (pyFloat streak)).floor.toNat

/-- The multiplier `1 + (self.streak * self.streak_bonus_percent / 100)`: the product of the
two ints is exact, the division by 100 and the addition are float operations. -/
def streakMult (streak bp : Nat) : Rat :=
  pyAdd 1 (pyDiv (pyFloat (streak * bp)) (pyFloat 100))

/-! ### Command handling -/

/-- The state committed by a successful `Game.handle_move`: the move is
executed, `moves_count` and `score` are updated, a `MoveHistoryEntry` is
recorded (with the pre-update streak and the pre-spawn board, as in the
source), the streak system runs, and `random_new_tiles` tiles are spawned.
`over`/`won` are untouched here (they change only in the win/over checks of
`process_command`). -/
def movedState (cfg : Config) (dir : Dir) (cs : List (Nat × Nat)) (g : Game) :
    StateDict :=
  { board := addTilesMove cfg cfg.randomNewTiles cs (executeMove cfg dir g.state.board).1
    score := g.state.score + (executeMove cfg dir g.state.board).2.1 +
      (if cfg.useStreak ∧ (executeMove cfg dir g.state.board).2.2 then
        streakBonus (executeMove cfg dir g.state.board).2.1 cfg.streakBonusPercent
          (g.state.streak + 1)
      else 0)
    streak :=
      if cfg.useStreak then
        (if (executeMove cfg dir g.state.board).2.2 then g.state.streak + 1 else 0)
      else g.state.streak
    streakMultiplier :=
      if cfg.useStreak then
        (if (executeMove cfg dir g.state.board).2.2 then
          streakMult (g.state.streak + 1) cfg.streakBonusPercent
        else 1)
      else g.state.streakMultiplier
    over := g.state.over
    won := g.state.won
    displayMessage :=
      if cfg.useStreak then
        (if (executeMove cfg dir g.state.board).2.2 then
          "Move successful! Streak: " ++ toString (g.state.streak + 1) ++ " (+" ++
            toString (streakBonus (executeMove cfg dir g.state.board).2.1
              cfg.streakBonusPercent (g.state.streak + 1)) ++ " bonus points)"
        else "Move successful! (no merges, streak reset)")
      else "Move successful!"
    movesCount := g.state.movesCount + 1
    moveHistory := g.state.moveHistory ++
      [{ moveNumber := g.state.movesCount + 1
         direction := dir
         pointsEarned := (executeMove cfg dir g.state.board).2.1
         mergeOccurred := (executeMove cfg dir g.state.board).2.2
         streakAfterMove := g.state.streak
         boardState := (executeMove cfg dir g.state.board).1 }] }

/-- Model of `Game.handle_move`: execute the move on the board; if the board did not
change, reject (message only, no state mutation, no history push); otherwise
commit the move and append the new state snapshot to the history. -/
def handleMove (cfg : Config) (dir : Dir) (cs : List (Nat × Nat)) (g : Game) :
    Game × Bool :=
  if (executeMove cfg dir g.state.board).1 = g.state.board then
    ({ g with state := { g.state with
        displayMessage := "Invalid move! No tiles can move in that direction." } },
     false)
  else
    ({ g with state := movedState cfg dir cs g,
              history := g.history ++ [movedState cfg dir cs g] }, true)

/-- Model of `Game.check_win`: scans every row for a value ≥ `win_value` (and sets
`won` in `endCheck` below). -/
def checkWinB (win : Nat) (b : Board) : Bool :=
  b.any fun row => row.any fun v => win ≤ v

/-- Model of `Game.check_game_over` as a predicate on the scanned rectangle: every cell
occupied, no horizontally adjacent equal pair, no vertically adjacent equal
pair. -/
def checkGameOverB (cfg : Config) (b : Board) : Bool :=
  (List.range cfg.sizeY).all fun y =>
    (List.range cfg.sizeX).all fun x =>
      (decide (getCell b y x ≠ 0)) &&
      (if x + 1 < cfg.sizeX then decide (getCell b y x ≠ getCell b y (x + 1)) else true) &&
      (if y + 1 < cfg.sizeY then decide (getCell b y x ≠ getCell b (y + 1) x) else true)

/-- The end-condition evaluation at the end of `Game.process_command` for move
commands: win is checked before game-over, and each check sets its flag. -/
def endCheck (cfg : Config) (g : Game) : Game :=
  if checkWinB cfg.winValue g.state.board then
    { g with state :=
        { g.state with
          won := true,
          displayMessage := "Congratulations! You have reached the target tile!" } }
  else if checkGameOverB cfg g.state.board then
    { g with state :=
        { g.state with
          over := true,
          displayMessage := "No more valid moves! Game Over!" } }
  else g

/-- The success message of `Game.handle_redo`. -/
def redoSuccessMsg (used : Nat) (maxRedo : Int) : String :=
  "Move undone! Redos used: " ++ toString used ++ "/" ++
    (if maxRedo = -1 then "∞" else toString maxRedo)

/-- Model of `Game.handle_redo`: fails when redo is disabled (`max_redo = 0`), when a
bounded allowance is used up, or when at most the initial snapshot remains;
otherwise pops the current snapshot, restores the new top (overwriting the
display message with the success message) and counts one redo. -/
def handleRedo (cfg : Config) (g : Game) : Game × Bool :=
  if cfg.maxRedo = 0 then
    ({ g with state := { g.state with displayMessage := "Redo is disabled!" } }, false)
  else if cfg.maxRedo ≤ (g.redosUsed : Int) ∧ cfg.maxRedo ≠ -1 then
    ({ g with state := { g.state with displayMessage := "No redos left!" } }, false)
  else if g.history.length ≤ 1 then
    ({ g with state := { g.state with displayMessage := "No moves to redo!" } }, false)
  else
    match g.history.dropLast.getLast? with
    | some prev =>
      ({ state := { prev with
           displayMessage := redoSuccessMsg (g.redosUsed + 1) cfg.maxRedo },
         hintsUsed := g.hintsUsed,
         redosUsed := g.redosUsed + 1,
         history := g.history.dropLast }, true)
    | none => ({ g with history := g.history.dropLast }, false)

/-- Model of `Game.handle_hint`: all three branches (AI success, AI failure, exception)
only set a display message and consume one hint; the message text comes from
the external advisory system and is a parameter here.  The state dictionary
and the history are untouched. -/
def handleHint (cfg : Config) (aiMsg : String) (g : Game) : Game × Bool :=
  if cfg.numberOfHints ≤ g.hintsUsed then
    ({ g with state := { g.state with displayMessage := "No hints left!" } }, false)
  else
    ({ g with state := { g.state with displayMessage := aiMsg },
              hintsUsed := g.hintsUsed + 1 }, true)

def emptyBoard (cfg : Config) : Board :=
  List.replicate cfg.sizeY (List.replicate cfg.sizeX 0)

/-- The state built by `Game.init_game` (before which `validate_config` must
have succeeded): zeroed counters and flags, `initial_tiles` spawned tiles. -/
def initState (cfg : Config) (cs : List (Nat × Nat)) : StateDict :=
  { board := addTilesInit cfg cfg.initialTiles cs (emptyBoard cfg)
    score := 0
    streak := 0
    streakMultiplier := 1
    over := false
    won := false
    displayMessage := "Game started!"
    movesCount := 0
    moveHistory := [] }

/-- Model of `Game.init_game`: fresh state, cleared counters, history reseeded with the
single initial snapshot. -/
def initGame (cfg : Config) (cs : List (Nat × Nat)) : Game :=
  { state := initState cfg cs
    hintsUsed := 0
    redosUsed := 0
    history := [initState cfg cs] }

/-- The commands `Game.process_command` dispatches on.  `other` covers `exit`
(which reaches the not-implemented branch without touching state) and invalid
command strings (rejected before dispatch). -/
inductive Cmd where
  | move (dir : Dir)
  | redo
  | hint (aiMsg : String)
  | restart
  | other
deriving DecidableEq

/-- Model of `Game.process_command`: dispatch the command, then — for move commands
only, whether or not the move was accepted — evaluate win before game-over. -/
def processCommand (cfg : Config) (cmd : Cmd) (cs : List (Nat × Nat)) (g : Game) :
    Game :=
  match cmd with
  | .move dir => endCheck cfg (handleMove cfg dir cs g).1
  | .redo => (handleRedo cfg g).1
  | .hint m => (handleHint cfg m g).1
  | .restart => initGame cfg cs
  | .other => g

/-- Game states reachable from initialization through any command sequence. -/
inductive Reachable (cfg : Config) : Game → Prop where
  | init (cs : List (Nat × Nat)) : Reachable cfg (initGame cfg cs)
  | step (g : Game) (cmd : Cmd) (cs : List (Nat × Nat)) :
      Reachable cfg g → Reachable cfg (processCommand cfg cmd cs g)

/-- A sequence of `k` accepted moves issued through `process_command` starting from `g`. -/
inductive MoveSeq (cfg : Config) : Nat → Game → Game → Prop where
  | zero (g : Game) : MoveSeq cfg 0 g g
  | succ (k : Nat) (g g' : Game) (dir : Dir) (cs : List (Nat × Nat)) :
      MoveSeq cfg k g g' → (handleMove cfg dir cs g').2 = true →
      MoveSeq cfg (k + 1) g (processCommand cfg (.move dir) cs g')

/-- Iterated `handle_redo` (keeping only the resulting game). -/
def redoIter (cfg : Config) : Nat → Game → Game
  | 0, g => g
  | n + 1, g => redoIter cfg n (handleRedo cfg g).1

/-- All of the next `n` calls to `handle_redo` succeed. -/
def redoAllOk (cfg : Config) : Nat → Game → Bool
  | 0, _ => true
  | n + 1, g => (handleRedo cfg g).2 && redoAllOk cfg n (handleRedo cfg g).1

/-- Equality of every `state` field except the display message (the message
channel is where rejections report their reason, and `handle_redo` overwrites
it with its success message after restoring a snapshot). -/
def stateCoreEq (s t : StateDict) : Prop :=
  s.board = t.board ∧ s.score = t.score ∧ s.streak = t.streak ∧
  s.streakMultiplier = t.streakMultiplier ∧ s.over = t.over ∧ s.won = t.won ∧
  s.movesCount = t.movesCount ∧ s.moveHistory = t.moveHistory

/-- The board rectangle the configuration promises: `size_y` rows of
`size_x` cells.  Maintained by every operation of the class. -/
def boardShape (cfg : Config) (b : Board) : Prop :=
  b.length = cfg.sizeY ∧ ∀ row ∈ b, row.length = cfg.sizeX

/-- The per-snapshot invariant behind C9: a winning flag is justified by a
winning cell, and an over flag is justified by a stuck board without a
winning cell and excludes the won flag. -/
def stateInv (cfg : Config) (s : StateDict) : Prop :=
  boardShape cfg s.board ∧
  (s.won = true → checkWinB cfg.winValue s.board = true) ∧
  (s.over = true →
    checkWinB cfg.winValue s.board = false ∧
    checkGameOverB cfg s.board = true ∧ s.won = false)

/-- The game invariant: the live state and every stored snapshot satisfy
`stateInv`, and stored snapshots never carry the over flag. -/
def gameInv (cfg : Config) (g : Game) : Prop :=
  stateInv cfg g.state ∧ ∀ s ∈ g.history, stateInv cfg s ∧ s.over = false

/-! ### Concrete games used to instantiate the hypotheses of the theorems -/

/-- A minimal valid configuration: 3×3 board, win target 4, tiles of value 2,
one initial tile, one tile per spawn, unlimited redo, no streak. -/
def demoCfg : Config :=
  { sizeX := 3, sizeY := 3, winValue := 4, initialTiles := 1, randomNewTiles := 1,
    newTileValues := [2], maxRedo := -1, mergeStrategy := .standard,
    allowSecondaryMerge := false, useStreak := false, streakBonusPercent := 10,
    numberOfHints := 3 }

/-- A configuration for the win/over-precedence scenario: three spawned tiles
per move with values in {1,2,3}, win target 4, bounded redo. -/
def demoCfgC4 : Config :=
  { demoCfg with randomNewTiles := 3, newTileValues := [1, 2, 3], maxRedo := 3 }

/-- A configuration with the streak system on and a 29% bonus. -/
def demoCfgStreak : Config :=
  { demoCfg with winValue := 10000, useStreak := true, streakBonusPercent := 29 }

/-- A game state (streak pending, empty history suffices) whose leftward move
merges 48+48 and 2+2 for exactly 100 points. -/
def demoStreakGame : Game :=
  { state :=
      { board := [[48, 48, 0], [2, 2, 0], [0, 0, 0]]
        score := 0, streak := 0, streakMultiplier := 1, over := false, won := false,
        displayMessage := "", movesCount := 0, moveHistory := [] }
    hintsUsed := 0, redosUsed := 0
    history :=
      [{ board := [[48, 48, 0], [2, 2, 0], [0, 0, 0]]
         score := 0, streak := 0, streakMultiplier := 1, over := false, won := false,
         displayMessage := "", movesCount := 0, moveHistory := [] }] }

/-- A streak-enabled game holding a streak of 3 whose next leftward move
slides without merging (to exercise the streak reset). -/
def demoNoMergeGame : Game :=
  { demoStreakGame with state :=
      { demoStreakGame.state with
        board := [[0, 2, 0], [0, 0, 0], [0, 0, 0]], streak := 3 } }

/-- A game whose board is about to satisfy the win/over-precedence scenario:
moving left merges each row, and the three spawned tiles (values 1, 3, 1)
fill the last column, leaving a full board with no adjacent equal pair and
cells ≥ 4. -/
def demoC4Game : Game :=
  { state :=
      { board := [[2, 2, 8], [8, 8, 2], [2, 2, 32]]
        score := 0, streak := 0, streakMultiplier := 1, over := false, won := false,
        displayMessage := "", movesCount := 0, moveHistory := [] }
    hintsUsed := 0, redosUsed := 0
    history :=
      [{ board := [[2, 2, 8], [8, 8, 2], [2, 2, 32]]
         score := 0, streak := 0, streakMultiplier := 1, over := false, won := false,
         displayMessage := "", movesCount := 0, moveHistory := [] }] }

/-- The initial snapshot of the demo game (board `[[2,0,0],[0,0,0],[0,0,0]]`). -/
def demoStateA : StateDict :=
  { board := [[2, 0, 0], [0, 0, 0], [0, 0, 0]]
    score := 0, streak := 0, streakMultiplier := 1, over := false, won := false,
    displayMessage := "Game started!", movesCount := 0, moveHistory := [] }

/-- A later snapshot of the demo game. -/
def demoStateB : StateDict :=
  { board := [[2, 0, 2], [0, 0, 0], [0, 0, 0]]
    score := 0, streak := 0, streakMultiplier := 1, over := false, won := false,
    displayMessage := "Move successful!", movesCount := 1, moveHistory := [] }

/-- A demo game with two snapshots on the history stack. -/
def demoRedoGame : Game :=
  { state := demoStateB, hintsUsed := 0, redosUsed := 0,
    history := [demoStateA, demoStateB] }

/-- The demo game after one accepted move through `process_command`. -/
def demoGk : Game :=
  processCommand demoCfg (.move .right) [(0, 0)] (initGame demoCfg [(0, 0)])

/-- The demo game after two accepted rightward moves: the two 2-tiles merge
into a 4, reaching the win target (`won = true`). -/
def demoWonGame : Game :=
  processCommand demoCfg (.move .right) [(0, 0)]
    (processCommand demoCfg (.move .right) [(0, 0)] (initGame demoCfg [(0, 0)]))

/-! ### Basic facts about the single passes -/

theorem mergeFwd_length_le : ∀ t : List Nat, (mergeFwd t).1.length ≤ t.length
  | [] => by simp [mergeFwd]
  | [a] => by simp [mergeFwd]
  | a :: b :: rest => by
    by_cases hab : a = b
    · have ih := mergeFwd_length_le rest
      simp only [mergeFwd, if_pos hab, List.length_cons]
      omega
    · have ih := mergeFwd_length_le (b :: rest)
      simp only [mergeFwd, if_neg hab, List.length_cons] at ih ⊢
      omega

theorem mergeFwd_length_lt :
    ∀ t : List Nat, (mergeFwd t).2.2 = true → (mergeFwd t).1.length < t.length
  | [] => by simp [mergeFwd]
  | [a] => by simp [mergeFwd]
  | a :: b :: rest => by
    by_cases hab : a = b
    · intro _
      have h := mergeFwd_length_le rest
      simp only [mergeFwd, if_pos hab, List.length_cons]
      omega
    · intro h
      simp only [mergeFwd, if_neg hab, List.length_cons] at h ⊢
      have := mergeFwd_length_lt (b :: rest) h
      simp only [List.length_cons] at this
      omega

theorem mergeFwd_sum : ∀ t : List Nat, (mergeFwd t).1.sum = t.sum
  | [] => by simp [mergeFwd]
  | [a] => by simp [mergeFwd]
  | a :: b :: rest => by
    by_cases hab : a = b
    · have ih := mergeFwd_sum rest
      simp only [mergeFwd, if_pos hab, List.sum_cons]
      omega
    · have ih := mergeFwd_sum (b :: rest)
      simp only [mergeFwd, if_neg hab, List.sum_cons] at ih ⊢
      omega

theorem mergeFwd_dominates :
    ∀ t : List Nat, ∀ x ∈ t, ∃ y ∈ (mergeFwd t).1, x ≤ y
  | [] => by simp
  | [a] => by
    intro x hx
    rcases List.mem_singleton.mp hx with rfl
    exact ⟨x, by simp [mergeFwd], le_refl x⟩
  | a :: b :: rest => by
    intro x hx
    by_cases hab : a = b
    · simp only [mergeFwd, if_pos hab]
      rcases List.mem_cons.mp hx with rfl | hx
      · exact ⟨x + b, by simp, by omega⟩
      · rcases List.mem_cons.mp hx with rfl | hx
        · exact ⟨a + x, by simp, by omega⟩
        · obtain ⟨y, hy, hxy⟩ := mergeFwd_dominates rest x hx
          exact ⟨y, by simp [hy], hxy⟩
    · simp only [mergeFwd, if_neg hab]
      rcases List.mem_cons.mp hx with rfl | hx
      · exact ⟨x, by simp, le_refl x⟩
      · obtain ⟨y, hy, hxy⟩ := mergeFwd_dominates (b :: rest) x hx
        exact ⟨y, by simp [hy], hxy⟩

/-- A pass over a line with no equal adjacent pair returns it unchanged. -/
theorem mergeFwd_noop :
    ∀ t : List Nat, t.Chain' (· ≠ ·) → mergeFwd t = (t, 0, false)
  | [] => fun _ => rfl
  | [a] => fun _ => rfl
  | a :: b :: rest => by
    intro hc
    have hab : a ≠ b := (List.chain'_cons.mp hc).1
    have ih := mergeFwd_noop (b :: rest) (List.chain'_cons.mp hc).2
    simp only [mergeFwd, if_neg hab, ih]

theorem stdPass_length_le (t : List Nat) : (stdPass t).1.length ≤ t.length := by
  have := mergeFwd_length_le t.reverse
  simpa [stdPass] using this

theorem stdPass_length_lt (t : List Nat) (h : (stdPass t).2.2 = true) :
    (stdPass t).1.length < t.length := by
  have h' : (mergeFwd t.reverse).2.2 = true := by simpa [stdPass] using h
  have := mergeFwd_length_lt t.reverse h'
  simpa [stdPass] using this

theorem stdPass_sum (t : List Nat) : (stdPass t).1.sum = t.sum := by
  simp only [stdPass, List.sum_reverse]
  rw [mergeFwd_sum t.reverse, List.sum_reverse]

theorem stdPass_dominates (t : List Nat) : ∀ x ∈ t, ∃ y ∈ (stdPass t).1, x ≤ y := by
  intro x hx
  obtain ⟨y, hy, hxy⟩ := mergeFwd_dominates t.reverse x (by simpa using hx)
  exact ⟨y, by simpa [stdPass] using hy, hxy⟩

theorem stdPass_noop (t : List Nat) (hc : t.Chain' (· ≠ ·)) :
    stdPass t = (t, 0, false) := by
  have hc' : t.reverse.Chain' (· ≠ ·) := by
    rw [List.chain'_reverse]
    exact hc.imp fun a b h => h.symm
  simp [stdPass, mergeFwd_noop t.reverse hc']

/-! ### The secondary-merge loop -/

section MergeSec

variable {pass : List Nat → List Nat × Nat × Bool}

theorem pass_nil_not_merged
    (hdec : ∀ t, (pass t).2.2 = true → (pass t).1.length < t.length) :
    (pass []).2.2 = false := by
  by_contra hm
  have := hdec [] (by simpa using hm)
  simp at this

theorem mergeSecAux_congr
    (hdec : ∀ t, (pass t).2.2 = true → (pass t).1.length < t.length) (sec : Bool) :
    ∀ f₁ : Nat, ∀ f₂ : Nat, ∀ t : List Nat, t.length ≤ f₁ → t.length ≤ f₂ →
      mergeSecAux pass sec f₁ t = mergeSecAux pass sec f₂ t := by
  intro f₁
  induction f₁ with
  | zero =>
    intro f₂ t h₁ _
    have ht : t = [] := List.length_eq_zero.mp (Nat.le_zero.mp h₁)
    subst ht
    cases f₂ with
    | zero => rfl
    | succ f₂ => simp [mergeSecAux, pass_nil_not_merged hdec]
  | succ f₁ ih =>
    intro f₂ t h₁ h₂
    cases f₂ with
    | zero =>
      have ht : t = [] := List.length_eq_zero.mp (Nat.le_zero.mp h₂)
      subst ht
      simp [mergeSecAux, pass_nil_not_merged hdec]
    | succ f₂ =>
      simp only [mergeSecAux]
      by_cases hc : sec ∧ (pass t).2.2 ∧ 1 < (pass t).1.length
      · have hlt : (pass t).1.length < t.length := hdec t hc.2.1
        rw [if_pos hc, if_pos hc, ih f₂ (pass t).1 (by omega) (by omega)]
      · rw [if_neg hc, if_neg hc]

/-- The defining recursion of the secondary-merge loop, with the fuel hidden. -/
theorem mergeSec_eq
    (hdec : ∀ t, (pass t).2.2 = true → (pass t).1.length < t.length)
    (sec : Bool) (t : List Nat) :
    mergeSecAux pass sec t.length t =
      if sec ∧ (pass t).2.2 ∧ 1 < (pass t).1.length then
        if (mergeSecAux pass sec (pass t).1.length (pass t).1).2.2 then
          ((mergeSecAux pass sec (pass t).1.length (pass t).1).1,
           (pass t).2.1 + (mergeSecAux pass sec (pass t).1.length (pass t).1).2.1, true)
        else pass t
      else pass t := by
  cases ht : t.length with
  | zero =>
    have ht' : t = [] := List.length_eq_zero.mp ht
    subst ht'
    simp [mergeSecAux, pass_nil_not_merged hdec]
  | succ n =>
    simp only [mergeSecAux]
    by_cases hc : sec ∧ (pass t).2.2 ∧ 1 < (pass t).1.length
    · have hlt : (pass t).1.length < t.length := hdec t hc.2.1
      rw [if_pos hc, if_pos hc,
        mergeSecAux_congr hdec sec n (pass t).1.length (pass t).1 (by omega) (le_refl _)]
    · rw [if_neg hc, if_neg hc]

theorem mergeSec_sum_aux
    (hdec : ∀ t, (pass t).2.2 = true → (pass t).1.length < t.length)
    (hsum : ∀ t, (pass t).1.sum = t.sum) (sec : Bool) :
    ∀ n : Nat, ∀ t : List Nat, t.length ≤ n →
      (mergeSecAux pass sec t.length t).1.sum = t.sum := by
  intro n
  induction n with
  | zero =>
    intro t h
    have ht : t = [] := List.length_eq_zero.mp (Nat.le_zero.mp h)
    subst ht
    simpa [mergeSecAux] using hsum []
  | succ n ih =>
    intro t h
    rw [mergeSec_eq hdec]
    by_cases hc : sec ∧ (pass t).2.2 ∧ 1 < (pass t).1.length
    · have hlt : (pass t).1.length < t.length := hdec t hc.2.1
      rw [if_pos hc]
      by_cases hm : (mergeSecAux pass sec (pass t).1.length (pass t).1).2.2 = true
      · rw [if_pos hm]
        have := ih (pass t).1 (by omega)
        simpa [this] using hsum t
      · rw [if_neg (by simpa using hm)]
        exact hsum t
    · rw [if_neg hc]
      exact hsum t

theorem mergeSec_length_le_aux
    (hlen : ∀ t, (pass t).1.length ≤ t.length)
    (hdec : ∀ t, (pass t).2.2 = true → (pass t).1.length < t.length) (sec : Bool) :
    ∀ n : Nat, ∀ t : List Nat, t.length ≤ n →
      (mergeSecAux pass sec t.length t).1.length ≤ t.length := by
  intro n
  induction n with
  | zero =>
    intro t h
    have ht : t = [] := List.length_eq_zero.mp (Nat.le_zero.mp h)
    subst ht
    simpa [mergeSecAux] using hlen []
  | succ n ih =>
    intro t h
    rw [mergeSec_eq hdec]
    by_cases hc : sec ∧ (pass t).2.2 ∧ 1 < (pass t).1.length
    · have hlt : (pass t).1.length < t.length := hdec t hc.2.1
      rw [if_pos hc]
      by_cases hm : (mergeSecAux pass sec (pass t).1.length (pass t).1).2.2 = true
      · rw [if_pos hm]
        have := ih (pass t).1 (by omega)
        simp only []
        omega
      · rw [if_neg (by simpa using hm)]
        exact hlen t
    · rw [if_neg hc]
      exact hlen t

theorem mergeSec_dominates_aux
    (hdec : ∀ t, (pass t).2.2 = true → (pass t).1.length < t.length)
    (hdom : ∀ t, ∀ x ∈ t, ∃ y ∈ (pass t).1, x ≤ y) (sec : Bool) :
    ∀ n : Nat, ∀ t : List Nat, t.length ≤ n →
      ∀ x ∈ t, ∃ y ∈ (mergeSecAux pass sec t.length t).1, x ≤ y := by
  intro n
  induction n with
  | zero =>
    intro t h
    have ht : t = [] := List.length_eq_zero.mp (Nat.le_zero.mp h)
    subst ht
    simp
  | succ n ih =>
    intro t h x hx
    rw [mergeSec_eq hdec]
    by_cases hc : sec ∧ (pass t).2.2 ∧ 1 < (pass t).1.length
    · have hlt : (pass t).1.length < t.length := hdec t hc.2.1
      rw [if_pos hc]
      by_cases hm : (mergeSecAux pass sec (pass t).1.length (pass t).1).2.2 = true
      · rw [if_pos hm]
        obtain ⟨y, hy, hxy⟩ := hdom t x hx
        obtain ⟨z, hz, hyz⟩ := ih (pass t).1 (by omega) y hy
        exact ⟨z, hz, le_trans hxy hyz⟩
      · rw [if_neg (by simpa using hm)]
        exact hdom t x hx
    · rw [if_neg hc]
      exact hdom t x hx

end MergeSec

theorem mergeBy_pass_dec (strat : Strategy) :
    ∀ t : List Nat,
      ((match strat with | .standard => stdPass t | .reverse => mergeFwd t).2.2 = true) →
      (match strat with | .standard => stdPass t | .reverse => mergeFwd t).1.length
        < t.length := by
  intro t
  cases strat with
  | standard => exact stdPass_length_lt t
  | reverse => exact mergeFwd_length_lt t

theorem mergeBy_sum (strat : Strategy) (sec : Bool) (t : List Nat) :
    (mergeBy strat sec t).1.sum = t.sum := by
  cases strat with
  | standard =>
    exact mergeSec_sum_aux stdPass_length_lt stdPass_sum sec t.length t (le_refl _)
  | reverse =>
    exact mergeSec_sum_aux mergeFwd_length_lt mergeFwd_sum sec t.length t (le_refl _)

theorem mergeBy_length_le (strat : Strategy) (sec : Bool) (t : List Nat) :
    (mergeBy strat sec t).1.length ≤ t.length := by
  cases strat with
  | standard =>
    exact mergeSec_length_le_aux stdPass_length_le stdPass_length_lt sec t.length t (le_refl _)
  | reverse =>
    exact mergeSec_length_le_aux mergeFwd_length_le mergeFwd_length_lt sec t.length t (le_refl _)

theorem mergeBy_dominates (strat : Strategy) (sec : Bool) (t : List Nat) :
    ∀ x ∈ t, ∃ y ∈ (mergeBy strat sec t).1, x ≤ y := by
  cases strat with
  | standard =>
    exact mergeSec_dominates_aux stdPass_length_lt stdPass_dominates sec t.length t (le_refl _)
  | reverse =>
    exact mergeSec_dominates_aux mergeFwd_length_lt mergeFwd_dominates sec t.length t (le_refl _)

theorem mergeBy_noop (strat : Strategy) (sec : Bool) (t : List Nat)
    (hc : t.Chain' (· ≠ ·)) : mergeBy strat sec t = (t, 0, false) := by
  cases strat with
  | standard =>
    show mergeSecAux stdPass sec t.length t = (t, 0, false)
    rw [mergeSec_eq stdPass_length_lt, stdPass_noop t hc]
    simp
  | reverse =>
    show mergeSecAux mergeFwd sec t.length t = (t, 0, false)
    rw [mergeSec_eq mergeFwd_length_lt, mergeFwd_noop t hc]
    simp

/-! ### Facts about processLine -/

theorem filter_ne_zero_sum : ∀ l : List Nat, (l.filter (fun x => x ≠ 0)).sum = l.sum
  | [] => rfl
  | a :: l => by
    have ih := filter_ne_zero_sum l
    rw [List.filter_cons]
    by_cases ha : a = 0
    · subst ha
      simpa using ih
    · have hd : (decide (a ≠ 0)) = true := by simp [ha]
      rw [hd]
      simpa using ih

theorem processLine_nilcase (strat : Strategy) (sec : Bool) (line : List Nat)
    (h : line.filter (fun x => x ≠ 0) = []) :
    processLine strat sec line = (line, 0, false) := by
  unfold processLine
  rw [if_pos h]

theorem processLine_poscase (strat : Strategy) (sec : Bool) (line : List Nat)
    (h : line.filter (fun x => x ≠ 0) ≠ []) :
    processLine strat sec line =
      padTriple line.length (mergeBy strat sec (line.filter (fun x => x ≠ 0))) := by
  unfold processLine
  rw [if_neg h]

theorem processLine_length (strat : Strategy) (sec : Bool) (line : List Nat) :
    (processLine strat sec line).1.length = line.length := by
  by_cases h : line.filter (fun x => x ≠ 0) = []
  · rw [processLine_nilcase strat sec line h]
  · rw [processLine_poscase strat sec line h]
    have h1 : (mergeBy strat sec (line.filter (fun x => x ≠ 0))).1.length ≤
        (line.filter (fun x => x ≠ 0)).length := mergeBy_length_le _ _ _
    have h2 : (line.filter (fun x => x ≠ 0)).length ≤ line.length :=
      List.length_filter_le _ _
    simp only [padTriple, List.length_append, List.length_replicate]
    omega

/-- C1: Value conservation.  For every input line of non-negative integers,
both merge policies and either setting of the secondary-merge flag, the line
returned by `Game._process_line` has the same sum of values as the input line:
merging only replaces two equal tiles by their sum and padding only appends
zeros. -/
theorem value_conservation (strat : Strategy) (sec : Bool) (line : List Nat) :
    (processLine strat sec line).1.sum = line.sum := by
  by_cases h : line.filter (fun x => x ≠ 0) = []
  · rw [processLine_nilcase strat sec line h]
  · rw [processLine_poscase strat sec line h]
    simp only [padTriple, List.sum_append, List.sum_replicate, smul_eq_mul, Nat.mul_zero,
      Nat.add_zero, mergeBy_sum, filter_ne_zero_sum]

/-- C7: Cascade example.  Processing `[2,2,2,2]` with the standard policy and
secondary merge enabled: the first pass gives `[4,4]` for 8 points, the second
pass gives `[8]` for 8 more points, and zero-padding restores the length, so
`Game._process_line` returns `([8,0,0,0], 16, merge_occurred = true)`. -/
theorem cascade_example :
    stdPass [2, 2, 2, 2] = ([4, 4], 8, true) ∧
    stdPass [4, 4] = ([8], 8, true) ∧
    processLine .standard true [2, 2, 2, 2] = ([8, 0, 0, 0], 16, true) := by
  refine ⟨by decide, by decide, by decide⟩

/-- C8: Mirror symmetry.  For every row, merge policy and configuration, the
rightward transform of `Game._move_right` is the reversal-conjugate of the
leftward transform of `Game._move_left`: processing a row R as a left line and
then reversing the result is exactly what processing reverse(R) as a right
line yields before its final reverse-back — equivalently, the right transform
applied to reverse(R) and then reversed back equals the left transform of R —
with identical points and merge flag. -/
theorem mirror_symmetry (strat : Strategy) (sec : Bool) (row : List Nat) :
    (processRowRight strat sec row.reverse).1 = (processLine strat sec row).1.reverse ∧
    (processRowRight strat sec row.reverse).2.1 = (processLine strat sec row).2.1 ∧
    (processRowRight strat sec row.reverse).2.2 = (processLine strat sec row).2.2 := by
  refine ⟨?_, ?_, ?_⟩ <;> simp [processRowRight, List.reverse_reverse]

/-! ### Counting merge passes (C10) -/

section CountPasses

variable {pass : List Nat → List Nat × Nat × Bool}

theorem countPassesAux_congr
    (hdec : ∀ t, (pass t).2.2 = true → (pass t).1.length < t.length) (sec : Bool) :
    ∀ f₁ : Nat, ∀ f₂ : Nat, ∀ t : List Nat, t.length ≤ f₁ → t.length ≤ f₂ →
      countPassesAux pass sec f₁ t = countPassesAux pass sec f₂ t := by
  intro f₁
  induction f₁ with
  | zero =>
    intro f₂ t h₁ _
    have ht : t = [] := List.length_eq_zero.mp (Nat.le_zero.mp h₁)
    subst ht
    cases f₂ with
    | zero => rfl
    | succ f₂ => simp [countPassesAux]
  | succ f₁ ih =>
    intro f₂ t h₁ h₂
    cases f₂ with
    | zero =>
      have ht : t = [] := List.length_eq_zero.mp (Nat.le_zero.mp h₂)
      subst ht
      simp [countPassesAux]
    | succ f₂ =>
      simp only [countPassesAux]
      by_cases ht : t = []
      · rw [if_pos ht, if_pos ht]
      · rw [if_neg ht, if_neg ht]
        by_cases hc : sec ∧ (pass t).2.2 ∧ 1 < (pass t).1.length
        · have hlt : (pass t).1.length < t.length := hdec t hc.2.1
          rw [if_pos hc, if_pos hc, ih f₂ (pass t).1 (by omega) (by omega)]
        · rw [if_neg hc, if_neg hc]

theorem countPassesAux_eq
    (hdec : ∀ t, (pass t).2.2 = true → (pass t).1.length < t.length)
    (sec : Bool) (t : List Nat) :
    countPassesAux pass sec t.length t =
      if t = [] then 0
      else 1 + (if sec ∧ (pass t).2.2 ∧ 1 < (pass t).1.length
                then countPassesAux pass sec (pass t).1.length (pass t).1 else 0) := by
  cases ht : t.length with
  | zero =>
    have ht' : t = [] := List.length_eq_zero.mp ht
    subst ht'
    simp [countPassesAux]
  | succ n =>
    have htne : t ≠ [] := by
      intro h
      subst h
      simp at ht
    simp only [countPassesAux]
    rw [if_neg htne, if_neg htne]
    by_cases hc : sec ∧ (pass t).2.2 ∧ 1 < (pass t).1.length
    · have hlt : (pass t).1.length < t.length := hdec t hc.2.1
      rw [if_pos hc, if_pos hc,
        countPassesAux_congr hdec sec n (pass t).1.length (pass t).1 (by omega) (le_refl _)]
    · rw [if_neg hc, if_neg hc]

theorem countPassesAux_bound
    (hdec : ∀ t, (pass t).2.2 = true → (pass t).1.length < t.length) (sec : Bool) :
    ∀ n : Nat, ∀ t : List Nat, t.length ≤ n → t ≠ [] →
      countPassesAux pass sec t.length t ≤ max 1 (t.length - 1) := by
  intro n
  induction n with
  | zero =>
    intro t h ht
    exact absurd (List.length_eq_zero.mp (Nat.le_zero.mp h)) ht
  | succ n ih =>
    intro t h ht
    rw [countPassesAux_eq hdec, if_neg ht]
    by_cases hc : sec ∧ (pass t).2.2 ∧ 1 < (pass t).1.length
    · have hlt : (pass t).1.length < t.length := hdec t hc.2.1
      have h2 : 1 < (pass t).1.length := hc.2.2
      have hne : (pass t).1 ≠ [] := by
        intro hnil
        rw [hnil] at h2
        simp at h2
      have hrec := ih (pass t).1 (by omega) hne
      have hmax1 : max 1 ((pass t).1.length - 1) = (pass t).1.length - 1 :=
        Nat.max_eq_right (by omega)
      have hmax2 : max 1 (t.length - 1) = t.length - 1 :=
        Nat.max_eq_right (by omega)
      rw [if_pos hc]
      rw [hmax1] at hrec
      rw [hmax2]
      omega
    · rw [if_neg hc]
      exact le_trans (by omega) (Nat.le_max_left 1 (t.length - 1))

end CountPasses

/-- C10 (amended): for every nonempty compressed line and either strategy, the
secondary-merge loop terminates after at most `max 1 (length − 1)` merge
passes (not `⌈log₂ length⌉` as claimed — see the counterexample), no single
pass ever increases the tile count, and when a pass produces no merge the loop
stops with the result of that pass. -/
theorem secondary_merge_pass_bound (strat : Strategy) (sec : Bool) (t : List Nat)
    (h : t ≠ []) :
    countPasses strat sec t ≤ max 1 (t.length - 1) ∧
    (stdPass t).1.length ≤ t.length ∧
    (mergeFwd t).1.length ≤ t.length ∧
    ((stdPass t).2.2 = false → mergeStandard sec t = stdPass t) ∧
    ((mergeFwd t).2.2 = false → mergeReverse sec t = mergeFwd t) := by
  refine ⟨?_, stdPass_length_le t, mergeFwd_length_le t, ?_, ?_⟩
  · cases strat with
    | standard =>
      exact countPassesAux_bound stdPass_length_lt sec t.length t (le_refl _) h
    | reverse =>
      exact countPassesAux_bound mergeFwd_length_lt sec t.length t (le_refl _) h
  · intro hm
    unfold mergeStandard
    rw [mergeSec_eq stdPass_length_lt, if_neg (by simp [hm])]
  · intro hm
    unfold mergeReverse
    rw [mergeSec_eq mergeFwd_length_lt, if_neg (by simp [hm])]

theorem secondary_merge_pass_bound_witness :
    countPasses .standard true [2, 4, 2] ≤ max 1 2 ∧
    (stdPass [2, 4, 2]).1.length ≤ 3 ∧
    (mergeFwd [2, 4, 2]).1.length ≤ 3 ∧
    mergeStandard true [2, 4, 2] = stdPass [2, 4, 2] ∧
    mergeReverse true [2, 4, 2] = mergeFwd [2, 4, 2] := by
  obtain ⟨h1, h2, h3, h4, h5⟩ :=
    secondary_merge_pass_bound .standard true [2, 4, 2] (by decide)
  exact ⟨h1, h2, h3, h4 (by decide), h5 (by decide)⟩

/-- C10 counterexample: the line `[2,2,4,8]` with the standard policy and
secondary merge enabled performs 3 merge passes ([2,2,4,8] → [4,4,8] → [8,8]
→ [16]), exceeding the claimed bound ⌈log₂ 4⌉ = 2. -/
theorem secondary_merge_log_bound_counterexample :
    ¬ (countPasses .standard true [2, 2, 4, 8] ≤
        Nat.clog 2 ([2, 2, 4, 8] : List Nat).length) := by
  intro hle
  have h1 : countPasses .standard true [2, 2, 4, 8] = 3 := by decide
  have h2 : Nat.clog 2 ([2, 2, 4, 8] : List Nat).length = 2 := by
    show Nat.clog 2 4 = 2
    exact Nat.clog_pow 2 2 (by norm_num)
  rw [h1, h2] at hle
  omega

/-! ### Facts about handle_move (C3, C4) -/

theorem handleMove_reject_eq (cfg : Config) (dir : Dir) (cs : List (Nat × Nat))
    (g : Game) (h : (executeMove cfg dir g.state.board).1 = g.state.board) :
    handleMove cfg dir cs g =
      ({ g with state := { g.state with
          displayMessage := "Invalid move! No tiles can move in that direction." } },
       false) := by
  unfold handleMove
  rw [if_pos h]

theorem handleMove_accept_eq (cfg : Config) (dir : Dir) (cs : List (Nat × Nat))
    (g : Game) (h : (executeMove cfg dir g.state.board).1 ≠ g.state.board) :
    handleMove cfg dir cs g =
      ({ g with state := movedState cfg dir cs g,
                history := g.history ++ [movedState cfg dir cs g] }, true) := by
  unfold handleMove
  rw [if_neg h]

theorem handleMove_over (cfg : Config) (dir : Dir) (cs : List (Nat × Nat)) (g : Game) :
    (handleMove cfg dir cs g).1.state.over = g.state.over := by
  by_cases h : (executeMove cfg dir g.state.board).1 = g.state.board
  · rw [handleMove_reject_eq cfg dir cs g h]
  · rw [handleMove_accept_eq cfg dir cs g h]
    rfl

theorem handleMove_won (cfg : Config) (dir : Dir) (cs : List (Nat × Nat)) (g : Game) :
    (handleMove cfg dir cs g).1.state.won = g.state.won := by
  by_cases h : (executeMove cfg dir g.state.board).1 = g.state.board
  · rw [handleMove_reject_eq cfg dir cs g h]
  · rw [handleMove_accept_eq cfg dir cs g h]
    rfl

/-- C3: Move validity and rejection atomicity.  `Game.handle_move` accepts a
move exactly when executing it produces a board different from the input
board (a pure slide with no merge still counts); when the board is unchanged
the move is rejected through the boolean result and nothing but the display
message changes: board, score, streak, multiplier, move count, flags, move
log, session counters, and the history stack are all untouched. -/
theorem move_validity_atomicity (cfg : Config) (dir : Dir) (cs : List (Nat × Nat))
    (g : Game) :
    ((handleMove cfg dir cs g).2 = true ↔
      (executeMove cfg dir g.state.board).1 ≠ g.state.board) ∧
    ((executeMove cfg dir g.state.board).1 = g.state.board →
      (handleMove cfg dir cs g).2 = false ∧
      (handleMove cfg dir cs g).1.state.board = g.state.board ∧
      (handleMove cfg dir cs g).1.state.score = g.state.score ∧
      (handleMove cfg dir cs g).1.state.streak = g.state.streak ∧
      (handleMove cfg dir cs g).1.state.streakMultiplier = g.state.streakMultiplier ∧
      (handleMove cfg dir cs g).1.state.movesCount = g.state.movesCount ∧
      (handleMove cfg dir cs g).1.state.over = g.state.over ∧
      (handleMove cfg dir cs g).1.state.won = g.state.won ∧
      (handleMove cfg dir cs g).1.state.moveHistory = g.state.moveHistory ∧
      (handleMove cfg dir cs g).1.history = g.history ∧
      (handleMove cfg dir cs g).1.redosUsed = g.redosUsed ∧
      (handleMove cfg dir cs g).1.hintsUsed = g.hintsUsed) := by
  by_cases h : (executeMove cfg dir g.state.board).1 = g.state.board
  · rw [handleMove_reject_eq cfg dir cs g h]
    simp [h]
  · rw [handleMove_accept_eq cfg dir cs g h]
    simp [h]

theorem move_validity_atomicity_witness :
    (handleMove demoCfg .left [(0, 0)] (initGame demoCfg [(0, 0)])).2 = false ∧
    (handleMove demoCfg .left [(0, 0)] (initGame demoCfg [(0, 0)])).1.state.board
      = (initGame demoCfg [(0, 0)]).state.board ∧
    (handleMove demoCfg .left [(0, 0)] (initGame demoCfg [(0, 0)])).1.state.score
      = (initGame demoCfg [(0, 0)]).state.score ∧
    (handleMove demoCfg .left [(0, 0)] (initGame demoCfg [(0, 0)])).1.history
      = (initGame demoCfg [(0, 0)]).history ∧
    (handleMove demoCfg .right [(0, 0)] (initGame demoCfg [(0, 0)])).2 = true := by
  obtain ⟨-, himp⟩ :=
    move_validity_atomicity demoCfg .left [(0, 0)] (initGame demoCfg [(0, 0)])
  have h := himp (by decide)
  refine ⟨h.1, h.2.1, h.2.2.1, h.2.2.2.2.2.2.2.2.2.1, ?_⟩
  exact (move_validity_atomicity demoCfg .right [(0, 0)]
    (initGame demoCfg [(0, 0)])).1.mpr (by decide)

/-! ### Facts about handle_redo (C5) -/

/-- C5: Redo rejection taxonomy and success behaviour, exactly as
`Game.handle_redo` sequences its checks.  With `max_redo = 0` the call fails
with the disabled reason; otherwise with a bounded allowance `n ≥ 1` already
consumed it fails with the limit reason; otherwise with at most one stored
snapshot it fails with the no-history reason; otherwise it pops the top
snapshot, restores the new top as the live state (board, score, streak,
multiplier, flags, move count and move log — a full rollback) and increments
the session redo counter.  Every rejection changes only the display message
(which carries the reason): core state, history and counters are untouched. -/
theorem redo_rejection_taxonomy (cfg : Config) (g : Game) (s : StateDict) :
    (cfg.maxRedo = 0 →
      (handleRedo cfg g).2 = false ∧
      (handleRedo cfg g).1.state.displayMessage = "Redo is disabled!" ∧
      stateCoreEq (handleRedo cfg g).1.state g.state ∧
      (handleRedo cfg g).1.history = g.history ∧
      (handleRedo cfg g).1.redosUsed = g.redosUsed) ∧
    (1 ≤ cfg.maxRedo → cfg.maxRedo ≤ (g.redosUsed : Int) →
      (handleRedo cfg g).2 = false ∧
      (handleRedo cfg g).1.state.displayMessage = "No redos left!" ∧
      stateCoreEq (handleRedo cfg g).1.state g.state ∧
      (handleRedo cfg g).1.history = g.history ∧
      (handleRedo cfg g).1.redosUsed = g.redosUsed) ∧
    ((cfg.maxRedo = -1 ∨ (1 ≤ cfg.maxRedo ∧ (g.redosUsed : Int) < cfg.maxRedo)) →
      g.history.length ≤ 1 →
      (handleRedo cfg g).2 = false ∧
      (handleRedo cfg g).1.state.displayMessage = "No moves to redo!" ∧
      stateCoreEq (handleRedo cfg g).1.state g.state ∧
      (handleRedo cfg g).1.history = g.history ∧
      (handleRedo cfg g).1.redosUsed = g.redosUsed) ∧
    ((cfg.maxRedo = -1 ∨ (1 ≤ cfg.maxRedo ∧ (g.redosUsed : Int) < cfg.maxRedo)) →
      1 < g.history.length → g.history.dropLast.getLast? = some s →
      (handleRedo cfg g).2 = true ∧
      (handleRedo cfg g).1.history = g.history.dropLast ∧
      (handleRedo cfg g).1.redosUsed = g.redosUsed + 1 ∧
      stateCoreEq (handleRedo cfg g).1.state s) := by
  refine ⟨?_, ?_, ?_, ?_⟩
  · intro h0
    unfold handleRedo
    rw [if_pos h0]
    simp [stateCoreEq]
  · intro h1 h2
    have hne0 : ¬ cfg.maxRedo = 0 := by omega
    have hlim : cfg.maxRedo ≤ (g.redosUsed : Int) ∧ cfg.maxRedo ≠ -1 :=
      ⟨h2, by omega⟩
    unfold handleRedo
    rw [if_neg hne0, if_pos hlim]
    simp [stateCoreEq]
  · intro hok hlen
    have hne0 : ¬ cfg.maxRedo = 0 := by rcases hok with h | h <;> omega
    have hnlim : ¬ (cfg.maxRedo ≤ (g.redosUsed : Int) ∧ cfg.maxRedo ≠ -1) := by
      rcases hok with h | h
      · exact fun hc => hc.2 h
      · exact fun hc => by omega
    unfold handleRedo
    rw [if_neg hne0, if_neg hnlim, if_pos hlen]
    simp [stateCoreEq]
  · intro hok hlen hs
    have hne0 : ¬ cfg.maxRedo = 0 := by rcases hok with h | h <;> omega
    have hnlim : ¬ (cfg.maxRedo ≤ (g.redosUsed : Int) ∧ cfg.maxRedo ≠ -1) := by
      rcases hok with h | h
      · exact fun hc => hc.2 h
      · exact fun hc => by omega
    have hnlen : ¬ g.history.length ≤ 1 := by omega
    unfold handleRedo
    rw [if_neg hne0, if_neg hnlim, if_neg hnlen, hs]
    simp [stateCoreEq]

theorem redo_rejection_taxonomy_witness :
    ((handleRedo { demoCfg with maxRedo := 0 } demoRedoGame).2 = false ∧
      (handleRedo { demoCfg with maxRedo := 0 } demoRedoGame).1.state.displayMessage
        = "Redo is disabled!" ∧
      (handleRedo { demoCfg with maxRedo := 0 } demoRedoGame).1.history
        = demoRedoGame.history) ∧
    ((handleRedo { demoCfg with maxRedo := 2 } { demoRedoGame with redosUsed := 2 }).2
        = false ∧
      (handleRedo { demoCfg with maxRedo := 2 }
        { demoRedoGame with redosUsed := 2 }).1.state.displayMessage
        = "No redos left!") ∧
    ((handleRedo demoCfg (initGame demoCfg [(0, 0)])).2 = false ∧
      (handleRedo demoCfg (initGame demoCfg [(0, 0)])).1.state.displayMessage
        = "No moves to redo!") ∧
    ((handleRedo demoCfg demoRedoGame).2 = true ∧
      (handleRedo demoCfg demoRedoGame).1.history = [demoStateA] ∧
      (handleRedo demoCfg demoRedoGame).1.redosUsed = 1 ∧
      stateCoreEq (handleRedo demoCfg demoRedoGame).1.state demoStateA) := by
  have h1 := (redo_rejection_taxonomy { demoCfg with maxRedo := 0 } demoRedoGame
    demoStateA).1 (by decide)
  have h2 := (redo_rejection_taxonomy { demoCfg with maxRedo := 2 }
    { demoRedoGame with redosUsed := 2 } demoStateA).2.1 (by decide) (by decide)
  have h3 := (redo_rejection_taxonomy demoCfg (initGame demoCfg [(0, 0)])
    demoStateA).2.2.1 (Or.inl (by decide)) (by decide)
  have h4 := (redo_rejection_taxonomy demoCfg demoRedoGame demoStateA).2.2.2
    (Or.inl (by decide)) (by decide) (by decide)
  refine ⟨⟨h1.1, h1.2.1, h1.2.2.2.1⟩, ⟨h2.1, h2.2.1⟩, ⟨h3.1, h3.2.1⟩,
    h4.1, ?_, h4.2.2.1, h4.2.2.2⟩
  rw [h4.2.1]
  decide

/-! ### Win before over (C4) -/

/-- C4: Win/over precedence.  After a move command whose resulting board is
fully occupied with no two adjacent equal cells and at least one cell at or
above the win target, the end-condition evaluation of `process_command` (which
checks win before game-over) sets `won` and leaves `over` false. -/
theorem win_over_precedence (cfg : Config) (dir : Dir) (cs : List (Nat × Nat))
    (g : Game) (hover : g.state.over = false)
    (_hfull : checkGameOverB cfg (handleMove cfg dir cs g).1.state.board = true)
    (hwin : checkWinB cfg.winValue (handleMove cfg dir cs g).1.state.board = true) :
    (processCommand cfg (.move dir) cs g).state.won = true ∧
    (processCommand cfg (.move dir) cs g).state.over = false := by
  show (endCheck cfg (handleMove cfg dir cs g).1).state.won = true ∧
    (endCheck cfg (handleMove cfg dir cs g).1).state.over = false
  unfold endCheck
  rw [if_pos hwin]
  refine ⟨rfl, ?_⟩
  show (handleMove cfg dir cs g).1.state.over = false
  rw [handleMove_over, hover]

/-! ### Bounded reversibility (C2) -/

theorem endCheck_history (cfg : Config) (g : Game) :
    (endCheck cfg g).history = g.history := by
  unfold endCheck
  split
  · rfl
  split
  · rfl
  · rfl

theorem head?_dropLast {α : Type} (l : List α) (h : 2 ≤ l.length) :
    l.dropLast.head? = l.head? := by
  match l with
  | [] => simp at h
  | [a] => simp at h
  | a :: b :: t => rfl

/-- One successful redo under unlimited allowance: explicit result shape. -/
theorem handleRedo_unlimited_step (cfg : Config) (g : Game) (prev : StateDict)
    (hmax : cfg.maxRedo = -1) (hlen : 2 ≤ g.history.length)
    (hprev : g.history.dropLast.getLast? = some prev) :
    handleRedo cfg g =
      ({ state := { prev with
           displayMessage := redoSuccessMsg (g.redosUsed + 1) (-1) },
         hintsUsed := g.hintsUsed,
         redosUsed := g.redosUsed + 1,
         history := g.history.dropLast }, true) := by
  unfold handleRedo
  rw [hmax]
  rw [if_neg (by decide : ¬ (-1 : Int) = 0)]
  rw [if_neg (fun hc => hc.2 rfl :
    ¬ ((-1 : Int) ≤ (g.redosUsed : Int) ∧ (-1 : Int) ≠ -1))]
  rw [if_neg (by omega : ¬ g.history.length ≤ 1), hprev]

/-- Walking the whole history back with `handle_redo` under unlimited redo:
every call succeeds, the stack shrinks to the initial snapshot alone, and the
live state is rolled back to that snapshot (modulo the success message). -/
theorem redo_chain (cfg : Config) (hmax : cfg.maxRedo = -1) :
    ∀ n : Nat, ∀ g : Game, ∀ s0 : StateDict,
      g.history.length = n + 1 → g.history.head? = some s0 →
      redoAllOk cfg n g = true ∧
      (redoIter cfg n g).history = [s0] ∧
      (n = 0 → redoIter cfg n g = g) ∧
      (0 < n → stateCoreEq (redoIter cfg n g).state s0) := by
  intro n
  induction n with
  | zero =>
    intro g s0 hlen hhead
    refine ⟨rfl, ?_, fun _ => rfl, fun h => absurd h (by omega)⟩
    show g.history = [s0]
    match hh : g.history with
    | [] => rw [hh] at hlen; simp at hlen
    | [a] =>
      rw [hh] at hhead
      simp only [List.head?_cons, Option.some.injEq] at hhead
      rw [hhead]
    | a :: b :: t =>
      rw [hh] at hlen
      simp only [List.length_cons] at hlen
      omega
  | succ n ih =>
    intro g s0 hlen hhead
    have hlen2 : 2 ≤ g.history.length := by omega
    have hd : g.history.dropLast.length = n + 1 := by
      rw [List.length_dropLast]
      omega
    have hne : g.history.dropLast ≠ [] := by
      intro h0
      rw [h0] at hd
      simp at hd
    obtain ⟨prev, hprev⟩ : ∃ p, g.history.dropLast.getLast? = some p :=
      ⟨_, List.getLast?_eq_getLast_of_ne_nil hne⟩
    have hstep := handleRedo_unlimited_step cfg g prev hmax hlen2 hprev
    have hhead1 : g.history.dropLast.head? = some s0 := by
      rw [head?_dropLast g.history hlen2, hhead]
    obtain ⟨hok, hhist, hz, hpos⟩ := ih (handleRedo cfg g).1 s0
      (by rw [hstep]; exact hd) (by rw [hstep]; exact hhead1)
    refine ⟨?_, ?_, fun h => absurd h (by omega), fun _ => ?_⟩
    · show ((handleRedo cfg g).2 && redoAllOk cfg n (handleRedo cfg g).1) = true
      rw [hok, hstep]
      rfl
    · show (redoIter cfg n (handleRedo cfg g).1).history = [s0]
      exact hhist
    · show stateCoreEq (redoIter cfg n (handleRedo cfg g).1).state s0
      cases n with
      | zero =>
        have hdl : g.history.dropLast = [s0] := by
          have h1 := hhist
          rw [show redoIter cfg 0 (handleRedo cfg g).1 = (handleRedo cfg g).1 from rfl,
            hstep] at h1
          exact h1
        rw [hdl] at hprev
        simp only [List.getLast?_singleton, Option.some.injEq] at hprev
        rw [show redoIter cfg 0 (handleRedo cfg g).1 = (handleRedo cfg g).1 from rfl,
          hstep, hprev]
        simp [stateCoreEq]
      | succ m =>
        exact hpos (by omega)

/-- An accepted move through `process_command` appends exactly one snapshot
and keeps the bottom of the history stack. -/
theorem moveSeq_history (cfg : Config) (k : Nat) (g0 gk : Game)
    (h : MoveSeq cfg k g0 gk) :
    gk.history.length = g0.history.length + k ∧
    (g0.history ≠ [] → gk.history.head? = g0.history.head?) := by
  induction h with
  | zero g => exact ⟨by simp, fun _ => rfl⟩
  | succ k g g' dir cs hseq hacc ih =>
    obtain ⟨ihlen, ihhead⟩ := ih
    have hexe : (executeMove cfg dir g'.state.board).1 ≠ g'.state.board := by
      intro he
      rw [handleMove_reject_eq cfg dir cs g' he] at hacc
      simp at hacc
    have hrw : (processCommand cfg (.move dir) cs g').history
        = g'.history ++ [movedState cfg dir cs g'] := by
      show (endCheck cfg (handleMove cfg dir cs g').1).history
        = g'.history ++ [movedState cfg dir cs g']
      rw [endCheck_history, handleMove_accept_eq cfg dir cs g' hexe]
    constructor
    · rw [hrw]
      simp only [List.length_append, List.length_cons, List.length_nil]
      omega
    · intro hne
      have hne' : g'.history ≠ [] := by
        intro h0
        rw [h0] at ihlen
        simp only [List.length_nil] at ihlen
        exact hne (List.length_eq_zero.mp (by omega))
      rw [hrw, List.head?_append_of_ne_nil _ hne', ihhead hne]

/-- C2: Bounded reversibility.  For a game configured with `max_redo = -1`
(unlimited), after any sequence of `k` accepted moves issued through
`process_command` following initialization, calling `handle_redo` `k` times
succeeds each time and rolls the live state — board, score, streak,
multiplier, flags, move count and move log — back to the initial snapshot
taken at game start; the `(k+1)`-th call fails with the no-history reason and
changes nothing but the display message. -/
theorem bounded_reversibility (cfg : Config) (hmax : cfg.maxRedo = -1)
    (ics : List (Nat × Nat)) (k : Nat) (gk : Game)
    (hseq : MoveSeq cfg k (initGame cfg ics) gk) :
    redoAllOk cfg k gk = true ∧
    stateCoreEq (redoIter cfg k gk).state (initGame cfg ics).state ∧
    (handleRedo cfg (redoIter cfg k gk)).2 = false ∧
    (handleRedo cfg (redoIter cfg k gk)).1.state.displayMessage
      = "No moves to redo!" ∧
    stateCoreEq (handleRedo cfg (redoIter cfg k gk)).1.state
      (redoIter cfg k gk).state ∧
    (handleRedo cfg (redoIter cfg k gk)).1.history = (redoIter cfg k gk).history := by
  obtain ⟨hlen, hheadfn⟩ := moveSeq_history cfg k (initGame cfg ics) gk hseq
  have hlen' : gk.history.length = k + 1 := by
    rw [hlen]
    show [initState cfg ics].length + k = k + 1
    simp only [List.length_singleton]
    omega
  have hhead' : gk.history.head? = some (initState cfg ics) :=
    hheadfn (by show [initState cfg ics] ≠ []; simp)
  obtain ⟨hok, hhist, hz, hpos⟩ := redo_chain cfg hmax k gk (initState cfg ics)
    hlen' hhead'
  have hcore : stateCoreEq (redoIter cfg k gk).state (initGame cfg ics).state := by
    cases k with
    | zero =>
      rw [hz rfl]
      cases hseq with
      | zero => simp [stateCoreEq]
    | succ m =>
      exact hpos (by omega)
  have hfail : handleRedo cfg (redoIter cfg k gk) =
      ({ (redoIter cfg k gk) with state := { (redoIter cfg k gk).state with
          displayMessage := "No moves to redo!" } }, false) := by
    unfold handleRedo
    rw [hmax]
    rw [if_neg (by decide : ¬ (-1 : Int) = 0)]
    rw [if_neg (fun hc => hc.2 rfl :
      ¬ ((-1 : Int) ≤ ((redoIter cfg k gk).redosUsed : Int) ∧ (-1 : Int) ≠ -1))]
    rw [if_pos (by rw [hhist]; simp : (redoIter cfg k gk).history.length ≤ 1)]
  refine ⟨hok, hcore, ?_, ?_, ?_, ?_⟩ <;> simp [hfail, stateCoreEq]

theorem bounded_reversibility_witness :
    redoAllOk demoCfg 1 demoGk = true ∧
    stateCoreEq (redoIter demoCfg 1 demoGk).state (initGame demoCfg [(0, 0)]).state ∧
    (handleRedo demoCfg (redoIter demoCfg 1 demoGk)).2 = false ∧
    (handleRedo demoCfg (redoIter demoCfg 1 demoGk)).1.state.displayMessage
      = "No moves to redo!" ∧
    stateCoreEq (handleRedo demoCfg (redoIter demoCfg 1 demoGk)).1.state
      (redoIter demoCfg 1 demoGk).state ∧
    (handleRedo demoCfg (redoIter demoCfg 1 demoGk)).1.history
      = (redoIter demoCfg 1 demoGk).history := by
  have hacc : (handleMove demoCfg .right [(0, 0)] (initGame demoCfg [(0, 0)])).2
      = true := by decide
  have hseq : MoveSeq demoCfg 1 (initGame demoCfg [(0, 0)]) demoGk :=
    MoveSeq.succ 0 (initGame demoCfg [(0, 0)]) (initGame demoCfg [(0, 0)]) .right
      [(0, 0)] (MoveSeq.zero (initGame demoCfg [(0, 0)])) hacc
  exact bounded_reversibility demoCfg rfl [(0, 0)] 1 demoGk hseq

/-! ### Board geometry: indexed views of the checks (C9) -/

theorem ite_decide_eq_true_iff (c : Prop) [Decidable c] (P : Prop) [Decidable P] :
    ((if c then decide P else true) = true) ↔ (c → P) := by
  by_cases h : c
  · simp [h]
  · simp [h]

theorem checkGameOverB_iff (cfg : Config) (b : Board) :
    checkGameOverB cfg b = true ↔
      ∀ y < cfg.sizeY, ∀ x < cfg.sizeX,
        getCell b y x ≠ 0 ∧
        (x + 1 < cfg.sizeX → getCell b y x ≠ getCell b y (x + 1)) ∧
        (y + 1 < cfg.sizeY → getCell b y x ≠ getCell b (y + 1) x) := by
  simp only [checkGameOverB, List.all_eq_true, List.mem_range, Bool.and_eq_true,
    decide_eq_true_eq, ite_decide_eq_true_iff, and_assoc]

theorem checkWinB_iff_mem (w : Nat) (b : Board) :
    checkWinB w b = true ↔ ∃ row ∈ b, ∃ v ∈ row, w ≤ v := by
  simp only [checkWinB, List.any_eq_true, decide_eq_true_eq]

theorem checkWinB_iff_idx (cfg : Config) (w : Nat) (b : Board) (hs : boardShape cfg b) :
    checkWinB w b = true ↔ ∃ y < cfg.sizeY, ∃ x < cfg.sizeX, w ≤ getCell b y x := by
  rw [checkWinB_iff_mem]
  constructor
  · rintro ⟨row, hrow, v, hv, hwv⟩
    obtain ⟨y, hy, hrq⟩ := List.mem_iff_getElem.mp hrow
    obtain ⟨x, hx, hvq⟩ := List.mem_iff_getElem.mp hv
    have hlen : row.length = cfg.sizeX := hs.2 row hrow
    refine ⟨y, by rw [← hs.1]; exact hy, x, by omega, ?_⟩
    unfold getCell
    rw [List.getD_eq_getElem b [] hy, hrq,
      List.getD_eq_getElem row 0 (by omega), hvq]
    exact hwv
  · rintro ⟨y, hy, x, hx, hw⟩
    have hy' : y < b.length := by rw [hs.1]; exact hy
    have hrow : b[y] ∈ b := List.getElem_mem hy'
    have hlen : (b[y]).length = cfg.sizeX := hs.2 _ hrow
    have hx' : x < (b[y]).length := by omega
    refine ⟨b[y], hrow, (b[y])[x], List.getElem_mem hx', ?_⟩
    unfold getCell at hw
    rwa [List.getD_eq_getElem b [] hy', List.getD_eq_getElem _ 0 hx'] at hw

/-! ### Shape preservation (C9) -/

theorem lineProc_length (cfg : Config) (l : List Nat) :
    (lineProc cfg l).1.length = l.length :=
  processLine_length _ _ _

theorem lineProcRev_length (cfg : Config) (l : List Nat) :
    (lineProcRev cfg l).1.length = l.length := by
  show (processLine cfg.mergeStrategy cfg.allowSecondaryMerge l.reverse).1.reverse.length
    = l.length
  rw [List.length_reverse, processLine_length, List.length_reverse]

theorem executeMove_left_board (cfg : Config) (b : Board) :
    (executeMove cfg .left b).1 = b.map fun row => (lineProc cfg row).1 := by
  show (combineLines (b.map (lineProc cfg))).1 = _
  simp [combineLines, List.map_map, Function.comp]

theorem executeMove_right_board (cfg : Config) (b : Board) :
    (executeMove cfg .right b).1 = b.map fun row => (lineProcRev cfg row).1 := by
  show (combineLines (b.map (lineProcRev cfg))).1 = _
  simp [combineLines, List.map_map, Function.comp]

theorem executeMove_up_board (cfg : Config) (b : Board) :
    (executeMove cfg .up b).1
      = rowsFromCols cfg ((colsOf cfg b).map fun col => (lineProc cfg col).1) := by
  show rowsFromCols cfg (combineLines ((colsOf cfg b).map (lineProc cfg))).1 = _
  simp only [combineLines, List.map_map]
  rfl

theorem executeMove_down_board (cfg : Config) (b : Board) :
    (executeMove cfg .down b).1
      = rowsFromCols cfg ((colsOf cfg b).map fun col => (lineProcRev cfg col).1) := by
  show rowsFromCols cfg (combineLines ((colsOf cfg b).map (lineProcRev cfg))).1 = _
  simp only [combineLines, List.map_map]
  rfl

theorem rowsFromCols_shape (cfg : Config) (cols : Board) :
    boardShape cfg (rowsFromCols cfg cols) := by
  constructor
  · simp [rowsFromCols]
  · intro row hrow
    simp only [rowsFromCols, List.mem_map, List.mem_range] at hrow
    obtain ⟨r, -, hrq⟩ := hrow
    rw [← hrq]
    simp

theorem executeMove_shape (cfg : Config) (dir : Dir) (b : Board)
    (hs : boardShape cfg b) : boardShape cfg (executeMove cfg dir b).1 := by
  cases dir with
  | up => rw [executeMove_up_board]; exact rowsFromCols_shape cfg _
  | down => rw [executeMove_down_board]; exact rowsFromCols_shape cfg _
  | left =>
    rw [executeMove_left_board]
    refine ⟨by simp [hs.1], ?_⟩
    intro row hrow
    simp only [List.mem_map] at hrow
    obtain ⟨r, hr, hrq⟩ := hrow
    rw [← hrq, lineProc_length]
    exact hs.2 r hr
  | right =>
    rw [executeMove_right_board]
    refine ⟨by simp [hs.1], ?_⟩
    intro row hrow
    simp only [List.mem_map] at hrow
    obtain ⟨r, hr, hrq⟩ := hrow
    rw [← hrq, lineProcRev_length]
    exact hs.2 r hr

theorem emptyCells_mem (cfg : Config) (b : Board) (p : Nat × Nat)
    (hp : p ∈ emptyCells cfg b) :
    p.1 < cfg.sizeY ∧ p.2 < cfg.sizeX ∧ getCell b p.1 p.2 = 0 := by
  simp only [emptyCells, List.mem_flatMap, List.mem_filterMap, List.mem_range] at hp
  obtain ⟨y, hy, x, hx, hcell⟩ := hp
  by_cases h : getCell b y x = 0
  · rw [if_pos h] at hcell
    obtain rfl : (y, x) = p := Option.some.inj hcell
    exact ⟨hy, hx, h⟩
  · rw [if_neg h] at hcell
    exact absurd hcell (by simp)

theorem addRandomTile_shape (cfg : Config) (choice : Nat × Nat) (b : Board)
    (hs : boardShape cfg b) : boardShape cfg (addRandomTile cfg choice b).1 := by
  unfold addRandomTile
  by_cases he : emptyCells cfg b = []
  · rw [if_pos he]
    exact hs
  · rw [if_neg he]
    have hlen : 0 < (emptyCells cfg b).length := List.length_pos.mpr he
    set q := (emptyCells cfg b).getD (choice.1 % (emptyCells cfg b).length) (0, 0)
      with hq
    have hm : q ∈ emptyCells cfg b := by
      rw [hq, List.getD_eq_getElem _ _ (Nat.mod_lt _ hlen)]
      exact List.getElem_mem _
    obtain ⟨hy, hx, -⟩ := emptyCells_mem cfg b _ hm
    have hy' : q.1 < b.length := by rw [hs.1]; exact hy
    constructor
    · show (b.set _ _).length = cfg.sizeY
      rw [List.length_set, hs.1]
    · intro row hrow
      rcases List.mem_or_eq_of_mem_set hrow with h | h
      · exact hs.2 row h
      · rw [h, List.length_set, List.getD_eq_getElem b [] hy']
        exact hs.2 _ (List.getElem_mem hy')

theorem addTilesMove_shape (cfg : Config) :
    ∀ n : Nat, ∀ cs : List (Nat × Nat), ∀ b : Board,
      boardShape cfg b → boardShape cfg (addTilesMove cfg n cs b) := by
  intro n
  induction n with
  | zero => intro cs b hs; exact hs
  | succ n ih =>
    intro cs b hs
    show boardShape cfg
      (if (addRandomTile cfg (cs.headD (0, 0)) b).2 then
        addTilesMove cfg n cs.tail (addRandomTile cfg (cs.headD (0, 0)) b).1 else b)
    by_cases h : (addRandomTile cfg (cs.headD (0, 0)) b).2 = true
    · rw [if_pos h]
      exact ih cs.tail _ (addRandomTile_shape cfg _ b hs)
    · rw [if_neg (by simpa using h)]
      exact hs

theorem addTilesInit_shape (cfg : Config) :
    ∀ n : Nat, ∀ cs : List (Nat × Nat), ∀ b : Board,
      boardShape cfg b → boardShape cfg (addTilesInit cfg n cs b) := by
  intro n
  induction n with
  | zero => intro cs b hs; exact hs
  | succ n ih =>
    intro cs b hs
    exact ih cs.tail _ (addRandomTile_shape cfg _ b hs)

theorem emptyBoard_shape (cfg : Config) : boardShape cfg (emptyBoard cfg) := by
  constructor
  · simp [emptyBoard]
  · intro row hrow
    rw [List.eq_of_mem_replicate hrow]
    simp

/-! ### A winning cell survives every move and every spawn (C9) -/

theorem processLine_present (strat : Strategy) (sec : Bool) (l : List Nat) (x : Nat)
    (hx : x ∈ l) (hx0 : x ≠ 0) : ∃ y ∈ (processLine strat sec l).1, x ≤ y := by
  have hmem : x ∈ l.filter (fun v => v ≠ 0) := by
    rw [List.mem_filter]
    exact ⟨hx, by simpa using hx0⟩
  have hne : l.filter (fun v => v ≠ 0) ≠ [] := by
    intro h0
    rw [h0] at hmem
    simp at hmem
  rw [processLine_poscase strat sec l hne]
  obtain ⟨y, hy, hxy⟩ := mergeBy_dominates strat sec _ x hmem
  exact ⟨y, List.mem_append_left _ hy, hxy⟩

theorem processLine_win (strat : Strategy) (sec : Bool) (l : List Nat) (w : Nat)
    (h : ∃ v ∈ l, w ≤ v) : ∃ y ∈ (processLine strat sec l).1, w ≤ y := by
  obtain ⟨v, hv, hwv⟩ := h
  by_cases hv0 : v = 0
  · subst hv0
    have hw0 : w = 0 := by omega
    subst hw0
    have hlen : (processLine strat sec l).1.length = l.length := processLine_length _ _ _
    have hne : (processLine strat sec l).1 ≠ [] := by
      intro h0
      rw [h0] at hlen
      exact (List.ne_nil_of_mem hv) (List.length_eq_zero.mp hlen.symm)
    obtain ⟨y, hy⟩ := List.exists_mem_of_ne_nil _ hne
    exact ⟨y, hy, Nat.zero_le y⟩
  · obtain ⟨y, hy, hvy⟩ := processLine_present strat sec l v hv hv0
    exact ⟨y, hy, le_trans hwv hvy⟩

theorem processRowRight_win (strat : Strategy) (sec : Bool) (l : List Nat) (w : Nat)
    (h : ∃ v ∈ l, w ≤ v) : ∃ y ∈ (processRowRight strat sec l).1, w ≤ y := by
  obtain ⟨v, hv, hwv⟩ := h
  obtain ⟨y, hy, hxy⟩ :=
    processLine_win strat sec l.reverse w ⟨v, by simpa using hv, hwv⟩
  refine ⟨y, ?_, hxy⟩
  show y ∈ (processLine strat sec l.reverse).1.reverse
  simpa using hy

theorem colsTransform_win (cfg : Config) (b : Board) (w : Nat)
    (f : List Nat → List Nat × Nat × Bool)
    (hflen : ∀ l, (f l).1.length = l.length)
    (hfwin : ∀ l, (∃ v ∈ l, w ≤ v) → ∃ y ∈ (f l).1, w ≤ y)
    (hs : boardShape cfg b)
    (h : checkWinB w b = true) :
    checkWinB w (rowsFromCols cfg ((colsOf cfg b).map fun col => (f col).1)) = true := by
  obtain ⟨y, hy, x, hx, hw⟩ := (checkWinB_iff_idx cfg w b hs).mp h
  have hcolmem : getCell b y x ∈ (List.range cfg.sizeY).map fun r => getCell b r x :=
    List.mem_map_of_mem _ (List.mem_range.mpr hy)
  obtain ⟨v', hv', hwv'⟩ := hfwin _ ⟨getCell b y x, hcolmem, hw⟩
  obtain ⟨r, hr, hrv⟩ := List.mem_iff_getElem.mp hv'
  have hrY : r < cfg.sizeY := by
    rw [hflen _] at hr
    simpa using hr
  rw [checkWinB_iff_idx cfg w _ (rowsFromCols_shape cfg _)]
  refine ⟨r, hrY, x, hx, ?_⟩
  have hc'len : ((colsOf cfg b).map fun col => (f col).1).length = cfg.sizeX := by
    simp [colsOf]
  have hxb : x < ((colsOf cfg b).map fun col => (f col).1).length := by
    rw [hc'len]
    exact hx
  have hcolx : ((colsOf cfg b).map fun col => (f col).1)[x]
      = (f ((List.range cfg.sizeY).map fun i => getCell b i x)).1 := by
    simp [colsOf, List.getElem_map, List.getElem_range]
  have e0 : getCell (rowsFromCols cfg ((colsOf cfg b).map fun col => (f col).1)) r x
      = getCell ((colsOf cfg b).map fun col => (f col).1) x r := by
    unfold getCell rowsFromCols
    rw [List.getD_eq_getElem _ [] (by simpa using hrY)]
    rw [List.getElem_map, List.getElem_range]
    rw [List.getD_eq_getElem _ 0 (by simpa using hx)]
    rw [List.getElem_map, List.getElem_range]
    rfl
  rw [e0]
  unfold getCell
  rw [List.getD_eq_getElem _ [] (by rw [hc'len]; exact hx), hcolx,
    List.getD_eq_getElem _ 0 hr, hrv]
  exact hwv'

theorem executeMove_win (cfg : Config) (dir : Dir) (b : Board)
    (hs : boardShape cfg b) (h : checkWinB cfg.winValue b = true) :
    checkWinB cfg.winValue (executeMove cfg dir b).1 = true := by
  cases dir with
  | left =>
    rw [executeMove_left_board]
    obtain ⟨row, hrow, v, hv, hwv⟩ := (checkWinB_iff_mem _ b).mp h
    obtain ⟨y, hy, hwy⟩ :=
      processLine_win cfg.mergeStrategy cfg.allowSecondaryMerge row _ ⟨v, hv, hwv⟩
    exact (checkWinB_iff_mem _ _).mpr
      ⟨(lineProc cfg row).1, List.mem_map_of_mem _ hrow, y, hy, hwy⟩
  | right =>
    rw [executeMove_right_board]
    obtain ⟨row, hrow, v, hv, hwv⟩ := (checkWinB_iff_mem _ b).mp h
    obtain ⟨y, hy, hwy⟩ :=
      processRowRight_win cfg.mergeStrategy cfg.allowSecondaryMerge row _ ⟨v, hv, hwv⟩
    exact (checkWinB_iff_mem _ _).mpr
      ⟨(lineProcRev cfg row).1, List.mem_map_of_mem _ hrow, y, hy, hwy⟩
  | up =>
    rw [executeMove_up_board]
    exact colsTransform_win cfg b _ (lineProc cfg) (lineProc_length cfg)
      (fun l hl => processLine_win _ _ l _ hl) hs h
  | down =>
    rw [executeMove_down_board]
    exact colsTransform_win cfg b _ (lineProcRev cfg) (lineProcRev_length cfg)
      (fun l hl => processRowRight_win _ _ l _ hl) hs h

theorem getCell_setCell_other (b : Board) (y x v y' x' : Nat)
    (hne : (y', x') ≠ (y, x)) : getCell (setCell b y x v) y' x' = getCell b y' x' := by
  unfold getCell setCell
  by_cases hy : y' = y
  · subst hy
    have hx : x ≠ x' := fun h => hne (by rw [h])
    by_cases hylen : y' < b.length
    · rw [List.getD_eq_getElem?_getD (b.set y' _), List.getElem?_set_self hylen]
      show ((b.getD y' []).set x v).getD x' 0 = (b.getD y' []).getD x' 0
      rw [List.getD_eq_getElem?_getD ((b.getD y' []).set x v),
        List.getElem?_set_ne hx, ← List.getD_eq_getElem?_getD]
    · rw [List.set_eq_of_length_le (by omega)]
  · rw [List.getD_eq_getElem?_getD (b.set y _), List.getElem?_set_ne (fun h => hy h.symm),
      ← List.getD_eq_getElem?_getD]

theorem getCell_setCell_self (b : Board) {y x : Nat} (v : Nat) (hy : y < b.length)
    (hx : x < (b.getD y []).length) : getCell (setCell b y x v) y x = v := by
  unfold getCell setCell
  rw [List.getD_eq_getElem?_getD (b.set y _), List.getElem?_set_self hy]
  show ((b.getD y []).set x v).getD x 0 = v
  rw [List.getD_eq_getElem?_getD ((b.getD y []).set x v), List.getElem?_set_self hx]
  rfl

theorem addRandomTile_win (cfg : Config) (choice : Nat × Nat) (b : Board)
    (_hs : boardShape cfg b)
    (h : ∃ y < cfg.sizeY, ∃ x < cfg.sizeX, cfg.winValue ≤ getCell b y x) :
    ∃ y < cfg.sizeY, ∃ x < cfg.sizeX,
      cfg.winValue ≤ getCell (addRandomTile cfg choice b).1 y x := by
  unfold addRandomTile
  by_cases he : emptyCells cfg b = []
  · rw [if_pos he]
    exact h
  · rw [if_neg he]
    obtain ⟨y, hy, x, hx, hw⟩ := h
    have hlen : 0 < (emptyCells cfg b).length := List.length_pos.mpr he
    set q := (emptyCells cfg b).getD (choice.1 % (emptyCells cfg b).length) (0, 0)
      with hq
    have hm : q ∈ emptyCells cfg b := by
      rw [hq, List.getD_eq_getElem _ _ (Nat.mod_lt _ hlen)]
      exact List.getElem_mem _
    obtain ⟨-, -, hzero⟩ := emptyCells_mem cfg b _ hm
    by_cases hsame : (y, x) = (q.1, q.2)
    · have hy1 : y = q.1 := congrArg Prod.fst hsame
      have hx1 : x = q.2 := congrArg Prod.snd hsame
      rw [hy1, hx1, hzero] at hw
      refine ⟨y, hy, x, hx, ?_⟩
      omega
    · refine ⟨y, hy, x, hx, ?_⟩
      rw [getCell_setCell_other b q.1 q.2 _ y x hsame]
      exact hw

theorem addTilesMove_win (cfg : Config) :
    ∀ n : Nat, ∀ cs : List (Nat × Nat), ∀ b : Board, boardShape cfg b →
      (∃ y < cfg.sizeY, ∃ x < cfg.sizeX, cfg.winValue ≤ getCell b y x) →
      ∃ y < cfg.sizeY, ∃ x < cfg.sizeX,
        cfg.winValue ≤ getCell (addTilesMove cfg n cs b) y x := by
  intro n
  induction n with
  | zero => intro cs b _ h; exact h
  | succ n ih =>
    intro cs b hs h
    show (∃ y < cfg.sizeY, ∃ x < cfg.sizeX, cfg.winValue ≤ getCell
      (if (addRandomTile cfg (cs.headD (0, 0)) b).2 then
        addTilesMove cfg n cs.tail (addRandomTile cfg (cs.headD (0, 0)) b).1 else b) y x)
    by_cases hb : (addRandomTile cfg (cs.headD (0, 0)) b).2 = true
    · rw [if_pos hb]
      exact ih cs.tail _ (addRandomTile_shape cfg _ b hs)
        (addRandomTile_win cfg _ b hs h)
    · rw [if_neg (by simpa using hb)]
      exact h

theorem movedBoard_win (cfg : Config) (dir : Dir) (cs : List (Nat × Nat)) (b : Board)
    (hs : boardShape cfg b) (h : checkWinB cfg.winValue b = true) :
    checkWinB cfg.winValue
      (addTilesMove cfg cfg.randomNewTiles cs (executeMove cfg dir b).1) = true := by
  have hs1 : boardShape cfg (executeMove cfg dir b).1 := executeMove_shape cfg dir b hs
  have h1 := executeMove_win cfg dir b hs h
  rw [checkWinB_iff_idx cfg _ _ hs1] at h1
  rw [checkWinB_iff_idx cfg _ _ (addTilesMove_shape cfg _ cs _ hs1)]
  exact addTilesMove_win cfg cfg.randomNewTiles cs _ hs1 h1

/-! ### Moves on a stuck board change nothing (C9) -/

theorem map_eq_self_of {α : Type} (l : List α) (f : α → α) (h : ∀ x ∈ l, f x = x) :
    l.map f = l := by
  induction l with
  | nil => rfl
  | cons a t ih =>
    rw [List.map_cons, h a (by simp), ih fun x hx => h x (by simp [hx])]

theorem getCell_eq_getElem (b : Board) {y x : Nat} (hy : y < b.length)
    (hx : x < (b[y]).length) : getCell b y x = (b[y])[x] := by
  unfold getCell
  rw [List.getD_eq_getElem b [] hy, List.getD_eq_getElem _ 0 hx]

theorem processLine_noop (strat : Strategy) (sec : Bool) (l : List Nat)
    (h0 : ∀ v ∈ l, v ≠ 0) (hc : l.Chain' (· ≠ ·)) :
    processLine strat sec l = (l, 0, false) := by
  have hfilter : l.filter (fun v => v ≠ 0) = l :=
    List.filter_eq_self.mpr fun a ha => by simpa using h0 a ha
  by_cases hl : l = []
  · subst hl
    exact processLine_nilcase strat sec [] rfl
  · rw [processLine_poscase strat sec l (by rw [hfilter]; exact hl), hfilter,
      mergeBy_noop strat sec l hc]
    unfold padTriple
    simp

theorem processRowRight_noop (strat : Strategy) (sec : Bool) (l : List Nat)
    (h0 : ∀ v ∈ l, v ≠ 0) (hc : l.Chain' (· ≠ ·)) :
    processRowRight strat sec l = (l, 0, false) := by
  have hc' : l.reverse.Chain' (· ≠ ·) := by
    rw [List.chain'_reverse]
    exact hc.imp fun a b h => h.symm
  have h0' : ∀ v ∈ l.reverse, v ≠ 0 := fun v hv => h0 v (by simpa using hv)
  unfold processRowRight
  rw [processLine_noop strat sec l.reverse h0' hc']
  simp

/-- The rows of a stuck board: all cells occupied and no horizontal pair. -/
theorem stuck_row_noop (cfg : Config) (b : Board) (hs : boardShape cfg b)
    (hst : ∀ y < cfg.sizeY, ∀ x < cfg.sizeX,
      getCell b y x ≠ 0 ∧
      (x + 1 < cfg.sizeX → getCell b y x ≠ getCell b y (x + 1)) ∧
      (y + 1 < cfg.sizeY → getCell b y x ≠ getCell b (y + 1) x))
    (row : List Nat) (hrow : row ∈ b) :
    (∀ v ∈ row, v ≠ 0) ∧ row.Chain' (· ≠ ·) := by
  obtain ⟨y, hy, hyq⟩ := List.mem_iff_getElem.mp hrow
  have hyY : y < cfg.sizeY := by rw [← hs.1]; exact hy
  have hlen : row.length = cfg.sizeX := hs.2 row hrow
  have hby : b.getD y [] = row := by rw [List.getD_eq_getElem b [] hy, hyq]
  have hcell : ∀ x : Nat, ∀ hx : x < row.length, getCell b y x = row[x] := by
    intro x hx
    unfold getCell
    rw [hby, List.getD_eq_getElem row 0 hx]
  constructor
  · intro v hv
    obtain ⟨x, hx, hxq⟩ := List.mem_iff_getElem.mp hv
    have h1 := (hst y hyY x (by omega)).1
    rw [hcell x hx, hxq] at h1
    exact h1
  · rw [List.chain'_iff_get]
    intro i hi
    have h2 := (hst y hyY i (by omega)).2.1 (by omega)
    simp only [List.get_eq_getElem]
    intro hEq
    exact h2 ((hcell i (by omega)).trans
      (hEq.trans (hcell (i + 1) (by omega)).symm))

/-- The columns of a stuck board: all cells occupied and no vertical pair. -/
theorem stuck_col_noop (cfg : Config) (b : Board)
    (hst : ∀ y < cfg.sizeY, ∀ x < cfg.sizeX,
      getCell b y x ≠ 0 ∧
      (x + 1 < cfg.sizeX → getCell b y x ≠ getCell b y (x + 1)) ∧
      (y + 1 < cfg.sizeY → getCell b y x ≠ getCell b (y + 1) x))
    (x : Nat) (hx : x < cfg.sizeX) :
    (∀ v ∈ (List.range cfg.sizeY).map fun r => getCell b r x, v ≠ 0) ∧
    ((List.range cfg.sizeY).map fun r => getCell b r x).Chain' (· ≠ ·) := by
  constructor
  · intro v hv
    simp only [List.mem_map, List.mem_range] at hv
    obtain ⟨r, hr, hrq⟩ := hv
    rw [← hrq]
    exact (hst r hr x hx).1
  · rw [List.chain'_iff_get]
    intro i hi
    simp only [List.length_map, List.length_range] at hi
    have h2 := (hst i (by omega) x hx).2.2 (by omega)
    simpa [List.get_eq_getElem, List.getElem_map, List.getElem_range] using h2

theorem rowsFromCols_colsOf (cfg : Config) (b : Board) (hs : boardShape cfg b) :
    rowsFromCols cfg (colsOf cfg b) = b := by
  apply List.ext_getElem
  · simp [rowsFromCols, hs.1]
  · intro r h1 h2
    have hrY : r < cfg.sizeY := by simpa [rowsFromCols] using h1
    show ((List.range cfg.sizeY).map fun i =>
      (List.range cfg.sizeX).map fun c => getCell (colsOf cfg b) c i)[r] = b[r]
    rw [List.getElem_map, List.getElem_range]
    apply List.ext_getElem
    · simp only [List.length_map, List.length_range]
      exact (hs.2 _ (List.getElem_mem h2)).symm
    · intro c hc1 hc2
      rw [List.getElem_map, List.getElem_range]
      have hcX : c < cfg.sizeX := by simpa using hc1
      have hcb : c < ((List.range cfg.sizeX).map fun j =>
          (List.range cfg.sizeY).map fun i => getCell b i j).length := by
        simpa using hcX
      have e1 : (colsOf cfg b).getD c []
          = (List.range cfg.sizeY).map fun i => getCell b i c := by
        rw [List.getD_eq_getElem _ [] (by simpa [colsOf] using hcX)]
        show ((List.range cfg.sizeX).map fun j =>
          (List.range cfg.sizeY).map fun i => getCell b i j)[c] = _
        rw [List.getElem_map, List.getElem_range]
      show getCell (colsOf cfg b) c r = _
      unfold getCell
      rw [e1, List.getD_eq_getElem _ 0 (by simpa using hrY), List.getElem_map,
        List.getElem_range]
      exact getCell_eq_getElem b h2 hc2

theorem executeMove_stuck (cfg : Config) (dir : Dir) (b : Board)
    (hs : boardShape cfg b) (hstuck : checkGameOverB cfg b = true) :
    (executeMove cfg dir b).1 = b := by
  have hst := (checkGameOverB_iff cfg b).mp hstuck
  cases dir with
  | left =>
    rw [executeMove_left_board]
    refine map_eq_self_of b _ fun row hrow => ?_
    obtain ⟨h0, hc⟩ := stuck_row_noop cfg b hs hst row hrow
    show (processLine cfg.mergeStrategy cfg.allowSecondaryMerge row).1 = row
    rw [processLine_noop _ _ row h0 hc]
  | right =>
    rw [executeMove_right_board]
    refine map_eq_self_of b _ fun row hrow => ?_
    obtain ⟨h0, hc⟩ := stuck_row_noop cfg b hs hst row hrow
    show (processRowRight cfg.mergeStrategy cfg.allowSecondaryMerge row).1 = row
    rw [processRowRight_noop _ _ row h0 hc]
  | up =>
    rw [executeMove_up_board]
    have hcols : (colsOf cfg b).map (fun col => (lineProc cfg col).1) = colsOf cfg b := by
      refine map_eq_self_of _ _ fun col hcol => ?_
      simp only [colsOf, List.mem_map, List.mem_range] at hcol
      obtain ⟨x, hx, hxq⟩ := hcol
      obtain ⟨h0, hc⟩ := stuck_col_noop cfg b hst x hx
      rw [← hxq]
      show (processLine cfg.mergeStrategy cfg.allowSecondaryMerge _).1 = _
      rw [processLine_noop _ _ _ h0 hc]
    rw [hcols, rowsFromCols_colsOf cfg b hs]
  | down =>
    rw [executeMove_down_board]
    have hcols : (colsOf cfg b).map (fun col => (lineProcRev cfg col).1)
        = colsOf cfg b := by
      refine map_eq_self_of _ _ fun col hcol => ?_
      simp only [colsOf, List.mem_map, List.mem_range] at hcol
      obtain ⟨x, hx, hxq⟩ := hcol
      obtain ⟨h0, hc⟩ := stuck_col_noop cfg b hst x hx
      rw [← hxq]
      show (processRowRight cfg.mergeStrategy cfg.allowSecondaryMerge _).1 = _
      rw [processRowRight_noop _ _ _ h0 hc]
    rw [hcols, rowsFromCols_colsOf cfg b hs]

/-! ### The reachable-state invariant (C9) -/

theorem endCheck_inv (cfg : Config) (g : Game) (h : stateInv cfg g.state) :
    stateInv cfg (endCheck cfg g).state := by
  unfold endCheck
  by_cases h1 : checkWinB cfg.winValue g.state.board = true
  · rw [if_pos h1]
    have hov : g.state.over = false := by
      by_contra hov
      have h2 := (h.2.2 (by simpa using hov)).1
      rw [h2] at h1
      simp at h1
    refine ⟨h.1, fun _ => h1, fun hc => ?_⟩
    have hc' : g.state.over = true := hc
    rw [hov] at hc'
    simp at hc'
  · rw [if_neg h1]
    by_cases h2 : checkGameOverB cfg g.state.board = true
    · rw [if_pos h2]
      have hwon : g.state.won = false := by
        by_contra hw
        exact h1 (h.2.1 (by simpa using hw))
      refine ⟨h.1, fun hw => ?_, fun _ => ⟨by simpa using h1, h2, hwon⟩⟩
      have hw' : g.state.won = true := hw
      rw [hwon] at hw'
      simp at hw'
    · rw [if_neg h2]
      exact h

theorem gameInv_init (cfg : Config) (cs : List (Nat × Nat)) :
    gameInv cfg (initGame cfg cs) := by
  have hsh : boardShape cfg (initState cfg cs).board :=
    addTilesInit_shape cfg _ cs _ (emptyBoard_shape cfg)
  have hsi : stateInv cfg (initState cfg cs) :=
    ⟨hsh, fun hw => by simp [initState] at hw, fun ho => by simp [initState] at ho⟩
  exact ⟨hsi, fun s hs => by rw [List.mem_singleton.mp hs]; exact ⟨hsi, rfl⟩⟩

theorem handleHint_inv (cfg : Config) (m : String) (g : Game)
    (h : gameInv cfg g) : gameInv cfg (handleHint cfg m g).1 := by
  unfold handleHint
  by_cases hc : cfg.numberOfHints ≤ g.hintsUsed
  · rw [if_pos hc]
    exact h
  · rw [if_neg hc]
    exact h

theorem handleRedo_inv (cfg : Config) (g : Game) (h : gameInv cfg g) :
    gameInv cfg (handleRedo cfg g).1 := by
  unfold handleRedo
  by_cases h1 : cfg.maxRedo = 0
  · rw [if_pos h1]
    exact h
  rw [if_neg h1]
  by_cases h2 : cfg.maxRedo ≤ (g.redosUsed : Int) ∧ cfg.maxRedo ≠ -1
  · rw [if_pos h2]
    exact h
  rw [if_neg h2]
  by_cases h3 : g.history.length ≤ 1
  · rw [if_pos h3]
    exact h
  rw [if_neg h3]
  cases hm : g.history.dropLast.getLast? with
  | none => exact ⟨h.1, fun s hs => h.2 s (List.dropLast_subset _ hs)⟩
  | some prev =>
    have hmem : prev ∈ g.history :=
      List.dropLast_subset _ (List.mem_of_mem_getLast? hm)
    obtain ⟨hinv, -⟩ := h.2 prev hmem
    exact ⟨hinv, fun s hs => h.2 s (List.dropLast_subset _ hs)⟩

theorem movedState_inv (cfg : Config) (dir : Dir) (cs : List (Nat × Nat)) (g : Game)
    (h : gameInv cfg g)
    (hacc : (executeMove cfg dir g.state.board).1 ≠ g.state.board) :
    stateInv cfg (movedState cfg dir cs g) ∧ (movedState cfg dir cs g).over = false := by
  obtain ⟨⟨hsh, hA, hB⟩, -⟩ := h
  have hov : g.state.over = false := by
    by_contra hov
    obtain ⟨-, hstuck, -⟩ := hB (by simpa using hov)
    exact hacc (executeMove_stuck cfg dir g.state.board hsh hstuck)
  have hsh' : boardShape cfg
      (addTilesMove cfg cfg.randomNewTiles cs (executeMove cfg dir g.state.board).1) :=
    addTilesMove_shape cfg _ cs _ (executeMove_shape cfg dir _ hsh)
  refine ⟨⟨hsh', fun hw => ?_, fun hc => ?_⟩, hov⟩
  · have hw' : g.state.won = true := hw
    exact movedBoard_win cfg dir cs g.state.board hsh (hA hw')
  · have hc' : g.state.over = true := hc
    rw [hov] at hc'
    simp at hc'

theorem processCommand_inv (cfg : Config) (cmd : Cmd) (cs : List (Nat × Nat))
    (g : Game) (h : gameInv cfg g) : gameInv cfg (processCommand cfg cmd cs g) := by
  cases cmd with
  | other => exact h
  | restart => exact gameInv_init cfg cs
  | hint m => exact handleHint_inv cfg m g h
  | redo => exact handleRedo_inv cfg g h
  | move dir =>
    show gameInv cfg (endCheck cfg (handleMove cfg dir cs g).1)
    have hmid : gameInv cfg (handleMove cfg dir cs g).1 := by
      by_cases hacc : (executeMove cfg dir g.state.board).1 = g.state.board
      · rw [handleMove_reject_eq cfg dir cs g hacc]
        exact h
      · rw [handleMove_accept_eq cfg dir cs g hacc]
        obtain ⟨hsi, hovf⟩ := movedState_inv cfg dir cs g h hacc
        refine ⟨hsi, fun s hs => ?_⟩
        rcases List.mem_append.mp hs with hs | hs
        · exact h.2 s hs
        · rw [List.mem_singleton.mp hs]
          exact ⟨hsi, hovf⟩
    exact ⟨endCheck_inv cfg _ hmid.1, by rw [endCheck_history]; exact hmid.2⟩

theorem gameInv_reachable (cfg : Config) (g : Game) (h : Reachable cfg g) :
    gameInv cfg g := by
  induction h with
  | init cs => exact gameInv_init cfg cs
  | step g cmd cs _ ih => exact processCommand_inv cfg cmd cs g ih

/-- C9 (amended): in every reachable game state the `won` and `over` flags are
never both true.  The terminality half of the original claim is false — see
`terminal_state_counterexample`: after `won` becomes true, `process_command`
still applies further accepted move commands and mutates the committed
state. -/
theorem won_over_mutually_exclusive (cfg : Config) (g : Game)
    (h : Reachable cfg g) : ¬(g.state.won = true ∧ g.state.over = true) := by
  obtain ⟨hstate, -⟩ := gameInv_reachable cfg g h
  rintro ⟨hw, ho⟩
  obtain ⟨-, -, hwf⟩ := hstate.2.2 ho
  rw [hwf] at hw
  simp at hw

theorem won_over_mutually_exclusive_witness :
    ¬((initGame demoCfg [(0, 0)]).state.won = true ∧
      (initGame demoCfg [(0, 0)]).state.over = true) :=
  won_over_mutually_exclusive demoCfg _ (Reachable.init [(0, 0)])

/-- C9 counterexample: a concrete reachable game (two rightward moves from a
fresh 3×3 game with win target 4) has `won = true`, yet a further move
command is applied by `process_command`: the committed board changes and the
move counter increments — the state is not terminal. -/
theorem terminal_state_counterexample :
    Reachable demoCfg demoWonGame ∧
    demoWonGame.state.won = true ∧
    demoWonGame.state.over = false ∧
    (processCommand demoCfg (.move .right) [(0, 0)] demoWonGame).state.board
      ≠ demoWonGame.state.board ∧
    (processCommand demoCfg (.move .right) [(0, 0)] demoWonGame).state.movesCount
      = demoWonGame.state.movesCount + 1 := by
  refine ⟨?_, by decide, by decide, by decide, by decide⟩
  exact Reachable.step _ (.move .right) [(0, 0)]
    (Reachable.step _ (.move .right) [(0, 0)] (Reachable.init [(0, 0)]))

theorem win_over_precedence_witness :
    (processCommand demoCfgC4 (.move .left) [(0, 0), (0, 2), (0, 0)]
      demoC4Game).state.won = true ∧
    (processCommand demoCfgC4 (.move .left) [(0, 0), (0, 2), (0, 0)]
      demoC4Game).state.over = false :=
  win_over_precedence demoCfgC4 .left [(0, 0), (0, 2), (0, 0)] demoC4Game
    (by decide) (by decide) (by decide)

/-! ### Streak scoring (C6) -/

/-- C6 (amended): for every accepted move with the streak system enabled, a
merge increments the streak and adds `points_earned` plus the streak bonus
`int(points_earned * (bp/100) * streak)` — computed by the source in IEEE-754
double arithmetic (`streakBonus`), which can fall short of the exact
`⌊points·streak·bp/100⌋` (see `streak_scoring_counterexample`) — and sets the
multiplier to the double value of `1 + streak·bp/100` (`streakMult`); a move
without a merge resets the streak to 0 and the multiplier to 1; with the
streak system disabled the score grows by `points_earned` only and streak and
multiplier are untouched. -/
theorem streak_scoring (cfg : Config) (dir : Dir) (cs : List (Nat × Nat)) (g : Game)
    (hacc : (handleMove cfg dir cs g).2 = true) :
    (cfg.useStreak = true → (executeMove cfg dir g.state.board).2.2 = true →
      (handleMove cfg dir cs g).1.state.streak = g.state.streak + 1 ∧
      (handleMove cfg dir cs g).1.state.score
        = g.state.score + (executeMove cfg dir g.state.board).2.1 +
          streakBonus (executeMove cfg dir g.state.board).2.1 cfg.streakBonusPercent
            (g.state.streak + 1) ∧
      (handleMove cfg dir cs g).1.state.streakMultiplier
        = streakMult (g.state.streak + 1) cfg.streakBonusPercent) ∧
    (cfg.useStreak = true → (executeMove cfg dir g.state.board).2.2 = false →
      (handleMove cfg dir cs g).1.state.streak = 0 ∧
      (handleMove cfg dir cs g).1.state.score
        = g.state.score + (executeMove cfg dir g.state.board).2.1 ∧
      (handleMove cfg dir cs g).1.state.streakMultiplier = 1) ∧
    (cfg.useStreak = false →
      (handleMove cfg dir cs g).1.state.score
        = g.state.score + (executeMove cfg dir g.state.board).2.1 ∧
      (handleMove cfg dir cs g).1.state.streak = g.state.streak ∧
      (handleMove cfg dir cs g).1.state.streakMultiplier
        = g.state.streakMultiplier) := by
  have hexe : (executeMove cfg dir g.state.board).1 ≠ g.state.board := by
    intro he
    rw [handleMove_reject_eq cfg dir cs g he] at hacc
    simp at hacc
  rw [handleMove_accept_eq cfg dir cs g hexe]
  refine ⟨fun h1 h2 => ?_, fun h1 h2 => ?_, fun h1 => ?_⟩
  · refine ⟨?_, ?_, ?_⟩ <;> simp [movedState, h1, h2]
  · refine ⟨?_, ?_, ?_⟩ <;> simp [movedState, h1, h2]
  · refine ⟨?_, ?_, ?_⟩ <;> simp [movedState, h1]

set_option maxRecDepth 100000 in
/-- C6 counterexample: a merging move earning exactly 100 points with
`streak_bonus_percent = 29` on the first streak step.  The source computes
`int(100 * (29/100) * 1)` in binary64: `29/100` rounds to a double strictly
below 29/100, the product rounds to 28.999999999999996, and truncation yields
a bonus of 28, so the committed score is 128 — not `100 + ⌊100·1·29/100⌋ =
129` as the claim's exact integer arithmetic demands.  The stored multiplier
is likewise the double nearest 1.29, not the exact 129/100. -/
theorem streak_scoring_counterexample :
    (handleMove demoCfgStreak .left [(0, 0)] demoStreakGame).2 = true ∧
    (executeMove demoCfgStreak .left demoStreakGame.state.board).2.1 = 100 ∧
    (executeMove demoCfgStreak .left demoStreakGame.state.board).2.2 = true ∧
    demoCfgStreak.useStreak = true ∧
    demoCfgStreak.streakBonusPercent = 29 ∧
    (handleMove demoCfgStreak .left [(0, 0)] demoStreakGame).1.state.streak = 1 ∧
    (handleMove demoCfgStreak .left [(0, 0)] demoStreakGame).1.state.score = 128 ∧
    ¬((handleMove demoCfgStreak .left [(0, 0)] demoStreakGame).1.state.score
        = demoStreakGame.state.score + 100 + (100 * 1 * 29) / 100) ∧
    ¬((handleMove demoCfgStreak .left [(0, 0)] demoStreakGame).1.state.streakMultiplier
        = Rat.divInt 129 100) := by
  refine ⟨by decide, by decide, by decide, by decide, by decide, by decide, by decide,
    by decide, by decide⟩

set_option maxRecDepth 100000 in
theorem streak_scoring_witness :
    ((handleMove demoCfgStreak .left [(0, 0)] demoStreakGame).1.state.streak
        = demoStreakGame.state.streak + 1 ∧
      (handleMove demoCfgStreak .left [(0, 0)] demoStreakGame).1.state.score
        = demoStreakGame.state.score +
          (executeMove demoCfgStreak .left demoStreakGame.state.board).2.1 +
          streakBonus (executeMove demoCfgStreak .left demoStreakGame.state.board).2.1
            demoCfgStreak.streakBonusPercent (demoStreakGame.state.streak + 1) ∧
      (handleMove demoCfgStreak .left [(0, 0)] demoStreakGame).1.state.streakMultiplier
        = streakMult (demoStreakGame.state.streak + 1)
            demoCfgStreak.streakBonusPercent) ∧
    ((handleMove demoCfgStreak .left [(0, 0)] demoNoMergeGame).1.state.streak = 0 ∧
      (handleMove demoCfgStreak .left [(0, 0)] demoNoMergeGame).1.state.score
        = demoNoMergeGame.state.score +
          (executeMove demoCfgStreak .left demoNoMergeGame.state.board).2.1 ∧
      (handleMove demoCfgStreak .left [(0, 0)] demoNoMergeGame).1.state.streakMultiplier
        = 1) ∧
    ((handleMove demoCfg .right [(0, 0)] (initGame demoCfg [(0, 0)])).1.state.score
        = (initGame demoCfg [(0, 0)]).state.score +
          (executeMove demoCfg .right (initGame demoCfg [(0, 0)]).state.board).2.1 ∧
      (handleMove demoCfg .right [(0, 0)] (initGame demoCfg [(0, 0)])).1.state.streak
        = (initGame demoCfg [(0, 0)]).state.streak ∧
      (handleMove demoCfg .right [(0, 0)]
          (initGame demoCfg [(0, 0)])).1.state.streakMultiplier
        = (initGame demoCfg [(0, 0)]).state.streakMultiplier) := by
  refine ⟨?_, ?_, ?_⟩
  · exact (streak_scoring demoCfgStreak .left [(0, 0)] demoStreakGame
      (by decide)).1 (by decide) (by decide)
  · exact (streak_scoring demoCfgStreak .left [(0, 0)] demoNoMergeGame
      (by decide)).2.1 (by decide) (by decide)
  · exact (streak_scoring demoCfg .right [(0, 0)] (initGame demoCfg [(0, 0)])
      (by decide)).2.2 (by decide)

end Py2048
